import Mathlib

set_option maxRecDepth 8192

/-!
Verification model of `keepass_host.py`, the KeePass native-messaging host:
a byte-stream frame codec (4-byte native-order length prefix plus UTF-8 JSON
payload), a message-envelope dispatcher (`handle_message` with handlers
`test-connection`, `get-credentials`, `get-status`), and the session loop
(`run`).  Python dictionaries decoded from JSON are modelled as association
lists with string keys built by dict insertion (later duplicate keys
overwrite in place), JSON numbers are modelled as integers (float payloads
are out of scope of the claims), and Python strings as lists of Unicode
scalar values.
-/

namespace KPH

/-- Convert a Lean string literal to the list-of-characters representation
used throughout this development for Python strings. -/
def s2l (s : String) : List Char := s.data

mutual

/-- JSON-representable Python value, as produced by `json.loads` and consumed
by `json.dumps` in the source.  Numbers are restricted to integers: no claim
involves float payloads.  Object fields are kept in dictionary insertion
order with string keys, as Python dicts do. -/
inductive Json where
  | null : Json
  | bool : Bool → Json
  | num : Int → Json
  | str : List Char → Json
  | arr : JsonList → Json
  | obj : JsonKVs → Json
deriving DecidableEq

/-- Spine of a JSON array (a Python list). -/
inductive JsonList where
  | nil : JsonList
  | cons : Json → JsonList → JsonList
deriving DecidableEq

/-- Spine of a JSON object (a Python dict): key/value pairs in insertion
order. -/
inductive JsonKVs where
  | nil : JsonKVs
  | cons : List Char → Json → JsonKVs → JsonKVs
deriving DecidableEq

end

mutual

/-- Node count of a JSON value (used to bound the parser fuel). -/
def jsize : Json → Nat
  | .null => 1
  | .bool _ => 1
  | .num _ => 1
  | .str _ => 1
  | .arr xs => 1 + lsize xs
  | .obj kvs => 1 + ksize kvs
termination_by structural j => j

/-- Node count of a JSON array spine. -/
def lsize : JsonList → Nat
  | .nil => 0
  | .cons v vs => 1 + jsize v + lsize vs
termination_by structural l => l

/-- Node count of a JSON object spine. -/
def ksize : JsonKVs → Nat
  | .nil => 0
  | .cons _ v kvs => 1 + jsize v + ksize kvs
termination_by structural l => l

end

/-- Does the object spine contain the given key? -/
def kvHasKey : JsonKVs → List Char → Bool
  | .nil, _ => false
  | .cons k _ tl, key => k = key || kvHasKey tl key

/-- First (and, for dict-shaped spines, only) value stored under a key:
Python dict lookup. -/
def kvLookup : JsonKVs → List Char → Option Json
  | .nil, _ => none
  | .cons k v tl, key => if k = key then some v else kvLookup tl key

/-- Python dict insertion: an existing key keeps its position and gets the
new value, a fresh key is appended at the end. -/
def insertKV : JsonKVs → List Char → Json → JsonKVs
  | .nil, k, v => .cons k v .nil
  | .cons k0 v0 tl, k, v =>
    if k0 = k then .cons k0 v tl else .cons k0 v0 (insertKV tl k v)

/-- Build a Python dict from parsed raw key/value pairs by sequential
insertion, exactly as `dict(pairs)` does in CPython's JSON object hook. -/
def pyDictOf : List (List Char × Json) → JsonKVs → JsonKVs
  | [], acc => acc
  | (k, v) :: ps, acc => pyDictOf ps (insertKV acc k v)

mutual

/-- A value is dict-shaped if every object spine inside it has pairwise
distinct keys, as any value produced by Python dicts is. -/
def jwf : Json → Bool
  | .null => true
  | .bool _ => true
  | .num _ => true
  | .str _ => true
  | .arr xs => lwf xs
  | .obj kvs => kwf kvs
termination_by structural j => j

/-- Dict-shapedness for array spines. -/
def lwf : JsonList → Bool
  | .nil => true
  | .cons v vs => jwf v && lwf vs
termination_by structural l => l

/-- Dict-shapedness for object spines: no duplicate keys, recursively. -/
def kwf : JsonKVs → Bool
  | .nil => true
  | .cons k v tl => !kvHasKey tl k && jwf v && kwf tl
termination_by structural l => l

end

/-- Lowercase hexadecimal digit, as CPython's JSON encoder emits. -/
def hexDigitChar (n : Nat) : Char :=
  if n < 10 then Char.ofNat (48 + n) else Char.ofNat (87 + n)

/-- Four lowercase hex digits, most significant first. -/
def toHex4 (n : Nat) : List Char :=
  [hexDigitChar (n / 4096 % 16), hexDigitChar (n / 256 % 16),
   hexDigitChar (n / 16 % 16), hexDigitChar (n % 16)]

/-- Decimal digits of `n`, most significant first; the first argument is
structural fuel (any fuel at least `n` gives all digits). -/
def natDigitsAux : Nat → Nat → List Char
  | 0, _ => []
  | fuel + 1, n =>
    if n = 0 then [] else natDigitsAux fuel (n / 10) ++ [Char.ofNat (48 + n % 10)]

/-- Decimal rendering of a natural number, as Python `str`. -/
def natChars (n : Nat) : List Char :=
  if n = 0 then [ '0' ] else natDigitsAux n n

/-- Decimal rendering of an integer, as Python `str` (and as `json.dumps`
renders ints). -/
def intChars (n : Int) : List Char :=
  if n < 0 then '-' :: natChars (-n).toNat else natChars n.toNat

/-- Escape of one character inside a JSON string, following CPython's
`json.encoder.py_encode_basestring_ascii` (the `ensure_ascii=True` default
used by `json.dumps` in the source): named escapes for quote, backslash and
the common control characters, `\uXXXX` for other controls and all
non-ASCII characters, with surrogate pairs above U+FFFF. -/
def escChar (c : Char) : List Char :=
  if c = '"' then [ '\\', '"' ]
  else if c = '\\' then [ '\\', '\\' ]
  else if c = Char.ofNat 8 then [ '\\', 'b' ]
  else if c = Char.ofNat 12 then [ '\\', 'f' ]
  else if c = Char.ofNat 10 then [ '\\', 'n' ]
  else if c = Char.ofNat 13 then [ '\\', 'r' ]
  else if c = Char.ofNat 9 then [ '\\', 't' ]
  else if c.toNat < 32 then '\\' :: 'u' :: toHex4 c.toNat
  else if c.toNat ≤ 126 then [ c ]
  else if c.toNat < 65536 then '\\' :: 'u' :: toHex4 c.toNat
  else
    '\\' :: 'u' :: toHex4 (55296 + (c.toNat - 65536) / 1024) ++
      '\\' :: 'u' :: toHex4 (56320 + (c.toNat - 65536) % 1024)

/-- Escape a whole string body (no surrounding quotes). -/
def escString : List Char → List Char
  | [] => []
  | c :: cs => escChar c ++ escString cs

mutual

/-- Model of `json.dumps` with its default options as called in
`send_message`: separators `", "` and `": "`, `ensure_ascii=True`.  A
member renders as `"key": value`. -/
def dumps : Json → List Char
  | .null => s2l ("null")
  | .bool true => s2l ("true")
  | .bool false => s2l ("false")
  | .num n => intChars n
  | .str s => '"' :: escString s ++ [ '"' ]
  | .arr .nil => [ '[', ']' ]
  | .arr (.cons v vs) => '[' :: (dumps v ++ dumpsElems vs ++ [ ']' ])
  | .obj .nil => [ '{', '}' ]
  | .obj (.cons k v kvs) =>
    '{' :: '"' :: (escString k ++ '"' :: ':' :: ' ' :: (dumps v ++ dumpsKVs kvs ++ [ '}' ]))
termination_by structural j => j

/-- Remaining array elements, each preceded by the `", "` separator. -/
def dumpsElems : JsonList → List Char
  | .nil => []
  | .cons v vs => ',' :: ' ' :: (dumps v ++ dumpsElems vs)
termination_by structural l => l

/-- Remaining object members, each preceded by the `", "` separator. -/
def dumpsKVs : JsonKVs → List Char
  | .nil => []
  | .cons k v kvs =>
    ',' :: ' ' :: '"' :: (escString k ++ '"' :: ':' :: ' ' :: (dumps v ++ dumpsKVs kvs))
termination_by structural l => l

end

/-- JSON whitespace, CPython's `_ws`: space, tab, newline, carriage
return. -/
def isWs (c : Char) : Bool :=
  c = ' ' || c = Char.ofNat 9 || c = Char.ofNat 10 || c = Char.ofNat 13

/-- Skip JSON whitespace. -/
def skipWs (cs : List Char) : List Char := cs.dropWhile isWs

/-- Value of one hexadecimal digit (both cases), as `\uXXXX` escapes
accept. -/
def hexVal (c : Char) : Option Nat :=
  if 48 ≤ c.toNat && c.toNat ≤ 57 then some (c.toNat - 48)
  else if 97 ≤ c.toNat && c.toNat ≤ 102 then some (c.toNat - 87)
  else if 65 ≤ c.toNat && c.toNat ≤ 70 then some (c.toNat - 55)
  else none

/-- Value of a four-digit hex escape body. -/
def hex4 (a b c d : Char) : Option Nat :=
  match hexVal a, hexVal b, hexVal c, hexVal d with
  | some va, some vb, some vc, some vd => some (va * 4096 + vb * 256 + vc * 16 + vd)
  | _, _, _, _ => none

/-- Named single-character escapes accepted after a backslash
(CPython's `BACKSLASH` table, minus `u` which is handled separately). -/
def escCharOf (e : Char) : Option Char :=
  if e = '"' then some '"'
  else if e = '\\' then some '\\'
  else if e = '/' then some '/'
  else if e = 'b' then some (Char.ofNat 8)
  else if e = 'f' then some (Char.ofNat 12)
  else if e = 'n' then some (Char.ofNat 10)
  else if e = 'r' then some (Char.ofNat 13)
  else if e = 't' then some (Char.ofNat 9)
  else none

/-- Lookahead for the low half of a `\uXXXX\uXXXX` surrogate pair: a
second `\uXXXX` escape whose value lies in the low-surrogate range. -/
def parseLowSurrogate : List Char → Option (Nat × List Char)
  | b1 :: b2 :: a :: b :: c :: d :: r =>
    if b1 = '\\' ∧ b2 = 'u' then
      match hex4 a b c d with
      | some m => if 56320 ≤ m ∧ m ≤ 57343 then some (m, r) else none
      | none => none
    else none
  | _ => none

/-- Decode the body of a `\uXXXX` escape: four hex digits, recombining a
high surrogate with a following `\uXXXX` low surrogate.  Deviation
(documented): CPython keeps an unpaired surrogate escape as a lone
surrogate code unit inside the `str`; such code units are not Unicode
scalar values, so this model rejects them — no claim exercises lone
surrogates. -/
def parseUEscape : List Char → Option (Char × List Char)
  | a :: b :: c :: d :: rest3 =>
    match hex4 a b c d with
    | none => none
    | some n =>
      if 55296 ≤ n ∧ n ≤ 56319 then
        match parseLowSurrogate rest3 with
        | none => none
        | some (m, rest4) =>
          some (Char.ofNat (65536 + (n - 55296) * 1024 + (m - 56320)), rest4)
      else if 56320 ≤ n ∧ n ≤ 57343 then none
      else some (Char.ofNat n, rest3)
  | _ => none

/-- Dispatch on the escape letter: `\u` escapes go to `parseUEscape`, the
named single-character escapes are looked up in `escCharOf`. -/
def parseEscape : List Char → Option (Char × List Char)
  | [] => none
  | e :: rest2 =>
    if e = 'u' then parseUEscape rest2
    else
      match escCharOf e with
      | none => none
      | some c2 => some (c2, rest2)

/-- Model of CPython's `py_scanstring`, applied after the opening quote:
returns the string body and the input after the closing quote.  Literal
control characters are rejected (`strict=True`) and escapes are decoded.
The fuel argument only bounds the recursion; every step consumes at least
one input character, so the `length + 1` supplied by `parseString` can
never run out. -/
def parseStringF : Nat → List Char → Option (List Char × List Char)
  | 0, _ => none
  | fuel + 1, cs =>
    match cs with
    | [] => none
    | c :: rest =>
      if c = '"' then some ([], rest)
      else if c = '\\' then
        match parseEscape rest with
        | none => none
        | some (c2, rest2) => (parseStringF fuel rest2).map (fun p => (c2 :: p.1, p.2))
      else if c.toNat < 32 then none
      else (parseStringF fuel rest).map (fun p => (c :: p.1, p.2))

/-- String body parser with its always-sufficient fuel. -/
def parseString (cs : List Char) : Option (List Char × List Char) :=
  parseStringF (cs.length + 1) cs

/-- ASCII decimal digit test. -/
def isDigitCh (c : Char) : Bool := 48 ≤ c.toNat && c.toNat ≤ 57

/-- Accumulate decimal digits into a natural number. -/
def digitsVal (ds : List Char) : Nat :=
  ds.foldl (fun acc c => 10 * acc + (c.toNat - 48)) 0

/-- Integer part of a JSON number per the `NUMBER_RE` regex
`(-?(?:0|[1-9]\d*))...`: a lone `0`, or a nonzero digit followed by a
maximal run of digits. -/
def parseIntBody : List Char → Option (Nat × List Char)
  | [] => none
  | c :: rest =>
    if c = '0' then some (0, rest)
    else if isDigitCh c then
      some (digitsVal (c :: rest.takeWhile isDigitCh), rest.dropWhile isDigitCh)
    else none

/-- Does the rest of the input continue the number into a float (fraction
or exponent part)? -/
def floatFollow : List Char → Bool
  | [] => false
  | c :: _ => c = '.' || c = 'e' || c = 'E'

/-- JSON number parser restricted to integers.  Deviation (documented):
CPython's decoder also accepts a fraction/exponent part (producing a float)
and the constants `NaN`/`Infinity`/`-Infinity`; floats are outside this
model, so those inputs are rejected — no claim depends on float payloads. -/
def parseNumber : List Char → Option (Int × List Char)
  | [] => none
  | c :: rest =>
    if c = '-' then
      match parseIntBody rest with
      | none => none
      | some (n, r) => if floatFollow r then none else some (-(n : Int), r)
    else
      match parseIntBody (c :: rest) with
      | none => none
      | some (n, r) => if floatFollow r then none else some ((n : Int), r)

/-- Consume three expected literal characters (the tails of the keywords
`null`, `true`, `false`). -/
def dropLit3 (a b c : Char) : List Char → Option (List Char)
  | x :: y :: z :: r => if x = a ∧ y = b ∧ z = c then some r else none
  | _ => none

/-- Consume four expected literal characters (the tail of `false`). -/
def dropLit4 (a b c d : Char) : List Char → Option (List Char)
  | x :: y :: z :: w :: r => if x = a ∧ y = b ∧ z = c ∧ w = d then some r else none
  | _ => none

mutual

/-- Model of CPython's `_scan_once` (with the whitespace skipping its call
sites perform): parse one JSON value.  The fuel argument only bounds the
nesting of recursive values; `jsize` of the value suffices. -/
def parseValue : Nat → List Char → Option (Json × List Char)
  | 0, _ => none
  | fuel + 1, cs =>
    match skipWs cs with
    | [] => none
    | c :: rest =>
      if c = '{' then
        let r1 := skipWs rest
        if r1.head? = some '}' then some (.obj .nil, r1.tail)
        else (parseMembers fuel r1).map (fun p => (Json.obj (pyDictOf p.1 .nil), p.2))
      else if c = '[' then
        let r1 := skipWs rest
        if r1.head? = some ']' then some (.arr .nil, r1.tail)
        else (parseElems fuel r1).map (fun p => (Json.arr p.1, p.2))
      else if c = '"' then (parseString rest).map (fun p => (Json.str p.1, p.2))
      else if c = 'n' then (dropLit3 'u' 'l' 'l' rest).map (fun r => (Json.null, r))
      else if c = 't' then (dropLit3 'r' 'u' 'e' rest).map (fun r => (Json.bool true, r))
      else if c = 'f' then (dropLit4 'a' 'l' 's' 'e' rest).map (fun r => (Json.bool false, r))
      else (parseNumber (c :: rest)).map (fun p => (Json.num p.1, p.2))

/-- Elements of a non-empty JSON array, positioned at the first element. -/
def parseElems : Nat → List Char → Option (JsonList × List Char)
  | 0, _ => none
  | fuel + 1, cs =>
    match parseValue fuel cs with
    | none => none
    | some (v, rest) =>
      let r1 := skipWs rest
      if r1.head? = some ',' then
        (parseElems fuel (skipWs r1.tail)).map (fun p => (JsonList.cons v p.1, p.2))
      else if r1.head? = some ']' then some (JsonList.cons v .nil, r1.tail)
      else none

/-- Members of a non-empty JSON object, positioned at the opening quote of
the first key; raw pairs in source order (CPython builds a pair list and
then converts it with `dict(pairs)`). -/
def parseMembers : Nat → List Char → Option (List (List Char × Json) × List Char)
  | 0, _ => none
  | fuel + 1, cs =>
    if cs.head? = some '"' then
      match parseString cs.tail with
      | none => none
      | some (k, cs2) =>
        let r1 := skipWs cs2
        if r1.head? = some ':' then
          match parseValue fuel (skipWs r1.tail) with
          | none => none
          | some (v, cs4) =>
            let r2 := skipWs cs4
            if r2.head? = some ',' then
              (parseMembers fuel (skipWs r2.tail)).map (fun p => ((k, v) :: p.1, p.2))
            else if r2.head? = some '}' then some ([(k, v)], r2.tail)
            else none
        else none
    else none

end

/-- Model of `json.loads`: parse one value, allow surrounding whitespace,
reject trailing data (`raw_decode` plus the end-of-input check in
`JSONDecoder.decode`).  The fuel `length + 1` always suffices because a
value's node count never exceeds its rendered length. -/
def loads (cs : List Char) : Option Json :=
  match parseValue (cs.length + 1) cs with
  | none => none
  | some (v, rest) => if skipWs rest = [] then some v else none

/-- UTF-8 encoding of one Unicode scalar value (`str.encode('utf-8')`). -/
def utf8EncodeChar (c : Char) : List Nat :=
  let n := c.toNat
  if n < 128 then [n]
  else if n < 2048 then [192 + n / 64, 128 + n % 64]
  else if n < 65536 then [224 + n / 4096, 128 + n / 64 % 64, 128 + n % 64]
  else [240 + n / 262144, 128 + n / 4096 % 64, 128 + n / 64 % 64, 128 + n % 64]

/-- UTF-8 encoding of a string (`str.encode('utf-8')`). -/
def utf8Encode : List Char → List Nat
  | [] => []
  | c :: cs => utf8EncodeChar c ++ utf8Encode cs

/-- Continuation byte test. -/
def isCont (b : Nat) : Bool := 128 ≤ b && b ≤ 191

/-- Continuation handling for a 2-byte lead (`0xc2`–`0xdf`). -/
def utf8Seq2 (b : Nat) : List Nat → Option (Char × List Nat)
  | b2 :: rest2 =>
    if isCont b2 then some (Char.ofNat ((b - 192) * 64 + (b2 - 128)), rest2) else none
  | _ => none

/-- Continuation handling for a 3-byte lead (`0xe0`–`0xef`), with the
range restrictions that exclude overlong encodings and surrogates. -/
def utf8Seq3 (b : Nat) : List Nat → Option (Char × List Nat)
  | b2 :: b3 :: rest2 =>
    let lo := if b = 224 then 160 else 128
    let hi := if b = 237 then 159 else 191
    if lo ≤ b2 && b2 ≤ hi && isCont b3 then
      some (Char.ofNat ((b - 224) * 4096 + (b2 - 128) * 64 + (b3 - 128)), rest2)
    else none
  | _ => none

/-- Continuation handling for a 4-byte lead (`0xf0`–`0xf4`), with the
range restrictions that exclude overlong encodings and values above
U+10FFFF. -/
def utf8Seq4 (b : Nat) : List Nat → Option (Char × List Nat)
  | b2 :: b3 :: b4 :: rest2 =>
    let lo := if b = 240 then 144 else 128
    let hi := if b = 244 then 143 else 191
    if lo ≤ b2 && b2 ≤ hi && isCont b3 && isCont b4 then
      some (Char.ofNat ((b - 240) * 262144 + (b2 - 128) * 4096 + (b3 - 128) * 64 + (b4 - 128)),
        rest2)
    else none
  | _ => none

/-- Decode one UTF-8 sequence from the front of the byte stream, strictly:
truncated sequences, stray continuation bytes, overlong encodings,
surrogates and values above U+10FFFF are rejected, exactly as CPython's
strict error handler does. -/
def utf8Step : List Nat → Option (Char × List Nat)
  | [] => none
  | b :: rest =>
    if b < 128 then some (Char.ofNat b, rest)
    else if b < 194 then none
    else if b ≤ 223 then utf8Seq2 b rest
    else if b ≤ 239 then utf8Seq3 b rest
    else if b ≤ 244 then utf8Seq4 b rest
    else none

/-- Strict UTF-8 decoding, one sequence at a time.  The fuel only bounds
the number of decoded characters; every sequence consumes at least one
byte, so the `length + 1` supplied by `utf8Decode` can never run out. -/
def utf8DecodeF : Nat → List Nat → Option (List Char)
  | 0, _ => none
  | _ + 1, [] => some []
  | fuel + 1, b :: rest =>
    match utf8Step (b :: rest) with
    | none => none
    | some (c, rest2) => (utf8DecodeF fuel rest2).map (fun s => c :: s)

/-- Model of `bytes.decode('utf-8')` with its always-sufficient fuel. -/
def utf8Decode (bs : List Nat) : Option (List Char) :=
  utf8DecodeF (bs.length + 1) bs

/-- Value of the 4-byte length header, `struct.unpack('=I', ...)`: native
byte order, which on the x86-64 hosts this program targets is
little-endian. -/
def le32Dec (b0 b1 b2 b3 : Nat) : Nat :=
  b0 + 256 * b1 + 65536 * b2 + 16777216 * b3

/-- The 4-byte length header `struct.pack('=I', n)` produces for
`n < 2^32` (little-endian native order). -/
def le32Enc (n : Nat) : List Nat :=
  [n % 256, n / 256 % 256, n / 65536 % 256, n / 16777216 % 256]

/-- Decode frame payload bytes: UTF-8 decode then `json.loads`. -/
def decodePayload (bs : List Nat) : Option Json :=
  match utf8Decode bs with
  | none => none
  | some cs => loads cs

/-- Model of `KeePassHost.read_message` over the remaining stdin byte
stream; also returns the bytes left unread.  `sys.stdin.buffer.read(k)`
returns up to `k` bytes (fewer only at end of stream).  All paths of the
Python function that return `None` — clean end of stream, a length header
shorter than 4 bytes (`struct.error`), payload bytes that fail UTF-8
decoding or JSON parsing (both exceptions are swallowed by the
`except` clause), and a payload whose JSON value is `null` (decoded to the
Python object `None` itself) — are the `none` case here. -/
def read_message (s : List Nat) : Option Json × List Nat :=
  match s with
  | [] => (none, [])
  | [_] => (none, [])
  | [_, _] => (none, [])
  | [_, _, _] => (none, [])
  | b0 :: b1 :: b2 :: b3 :: rest =>
    let len := le32Dec b0 b1 b2 b3
    match decodePayload (rest.take len) with
    | none => (none, rest.drop len)
    | some v => (if v = Json.null then none else some v, rest.drop len)

/-- Bytes `KeePassHost.send_message` writes to stdout for a message: a
4-byte little-endian (native-order) length header followed by the UTF-8
encoded JSON text.  When the payload reaches 2^32 bytes, `struct.pack`
raises, the exception is swallowed by the `except` clause, and nothing at
all is written. -/
def send_message_bytes (m : Json) : List Nat :=
  let payload := utf8Encode (dumps m)
  if payload.length < 4294967296 then le32Enc payload.length ++ payload else []

/-- Session state held on the `KeePassHost` instance (`__init__`):
`kp_some` models `self.kp is not None`, the only fact about `self.kp` the
program reads. -/
structure HostState where
  kp_some : Bool
  database_path : Option (List Char)
  is_connected : Bool
deriving DecidableEq

/-- State after `KeePassHost.__init__`. -/
def initState : HostState := ⟨false, none, false⟩

/-- Python truthiness (`if not domain`, `if self.database_path`) restricted
to JSON-representable values. -/
def pyTruthy : Json → Bool
  | .null => false
  | .bool b => b
  | .num n => n != 0
  | .str s => !s.isEmpty
  | .arr .nil => false
  | .arr _ => true
  | .obj .nil => false
  | .obj _ => true

/-- Python type name of a JSON-representable value, as it appears in
runtime error messages. -/
def pyTypeName : Json → List Char
  | .null => s2l ("NoneType")
  | .bool _ => s2l ("bool")
  | .num _ => s2l ("int")
  | .str _ => s2l ("str")
  | .arr _ => s2l ("list")
  | .obj _ => s2l ("dict")

/-- ASCII apostrophe, built from its code so that string literals in this
file stay apostrophe-free. -/
def quoteCh : Char := Char.ofNat 39

/-- Message of the `AttributeError` raised by `x.get(...)` when `x` is not
a dict: `'T' object has no attribute 'get'`. -/
def attrGetError (v : Json) : List Char :=
  quoteCh :: (pyTypeName v ++ quoteCh :: (s2l (" object has no attribute ") ++ quoteCh :: 'g' :: 'e' :: 't' :: [ quoteCh ]))

/-- Escape of one character inside a Python `repr` string literal quoted by
`q`. -/
def reprStrChar (q : Char) (c : Char) : List Char :=
  if c = '\\' then [ '\\', '\\' ]
  else if c = q then [ '\\', q ]
  else if c = Char.ofNat 10 then [ '\\', 'n' ]
  else if c = Char.ofNat 13 then [ '\\', 'r' ]
  else if c = Char.ofNat 9 then [ '\\', 't' ]
  else if c.toNat < 32 || c.toNat = 127 then
    [ '\\', 'x', hexDigitChar (c.toNat / 16), hexDigitChar (c.toNat % 16) ]
  else [ c ]

/-- Python `repr` of a string: single-quoted unless the string contains an
apostrophe but no double quote.  (Non-printable non-ASCII characters,
which CPython would also escape, are left literal: no claim reaches
them.) -/
def pyReprStr (s : List Char) : List Char :=
  let q := if s.contains quoteCh && !s.contains '"' then '"' else quoteCh
  q :: ((s.map (reprStrChar q)).flatten ++ [ q ])

mutual

/-- Python `repr` of a JSON-representable value, used by f-string
interpolation of lists and dicts. -/
def pyRepr : Json → List Char
  | .null => s2l ("None")
  | .bool true => s2l ("True")
  | .bool false => s2l ("False")
  | .num n => intChars n
  | .str s => pyReprStr s
  | .arr .nil => [ '[', ']' ]
  | .arr (.cons v vs) => '[' :: (pyRepr v ++ pyReprElems vs ++ [ ']' ])
  | .obj .nil => [ '{', '}' ]
  | .obj (.cons k v kvs) =>
    '{' :: (pyReprStr k ++ ':' :: ' ' :: (pyRepr v ++ pyReprKVs kvs ++ [ '}' ]))
termination_by structural j => j

/-- Remaining list elements in a `repr`, comma-separated. -/
def pyReprElems : JsonList → List Char
  | .nil => []
  | .cons v vs => ',' :: ' ' :: (pyRepr v ++ pyReprElems vs)
termination_by structural l => l

/-- Remaining dict members in a `repr`, comma-separated. -/
def pyReprKVs : JsonKVs → List Char
  | .nil => []
  | .cons k v kvs => ',' :: ' ' :: (pyReprStr k ++ ':' :: ' ' :: (pyRepr v ++ pyReprKVs kvs))
termination_by structural l => l

end

/-- Python `str` of a JSON-representable value, as f-string interpolation
(`f"Unknown action: ..."`) renders it. -/
def pyStr : Json → List Char
  | .str s => s
  | v => pyRepr v

/-- Model of `os.path.basename` on POSIX: everything after the last
slash. -/
def basename (p : List Char) : List Char :=
  (p.reverse.takeWhile (fun c => c ≠ '/')).reverse

/-- Python `x.get(key, dflt)`: dict lookup with default, or an
`AttributeError` when `x` is not a dict. -/
def pyGet (v : Json) (key : List Char) (dflt : Json) : Except (List Char) Json :=
  match v with
  | .obj kvs => .ok ((kvLookup kvs key).getD dflt)
  | _ => .error (attrGetError v)

/-- Model of `KeePassHost.handle_test_connection`.  `avail` is the
module-level `PYKEEPASS_AVAILABLE` flag.  The handler threads the session
state through unchanged (the Python method assigns no attribute). -/
def handle_test_connection (avail : Bool) (st : HostState) (_data : Json) :
    Except (List Char) (Json × HostState) :=
  .ok (.obj (.cons (s2l ("connected")) (.bool avail)
      (.cons (s2l ("message"))
        (.str (if avail then s2l ("Connection test successful") else s2l ("PyKeePass not available")))
        .nil)), st)

/-- Model of `KeePassHost.handle_get_credentials`: raises when pykeepass is
unavailable, then fetches `data.get('domain', '')` (an `AttributeError` on
non-dict `data` also propagates as an exception), raises when the domain is
falsy, and otherwise returns the stub empty credentials list — the backend
query is commented out in the source, so no backend call is made. -/
def handle_get_credentials (avail : Bool) (st : HostState) (data : Json) :
    Except (List Char) (Json × HostState) :=
  if !avail then .error (s2l ("PyKeePass not available"))
  else
    match pyGet data (s2l ("domain")) (.str []) with
    | .error e => .error e
    | .ok domain =>
      if !pyTruthy domain then .error (s2l ("Domain not provided"))
      else .ok (.obj (.cons (s2l ("credentials")) (.arr .nil) .nil), st)

/-- Model of `KeePassHost.handle_get_status`: reports whether `self.kp` is
set (twice) and the basename of `self.database_path` (empty for a falsy
path). -/
def handle_get_status (_avail : Bool) (st : HostState) (_data : Json) :
    Except (List Char) (Json × HostState) :=
  .ok (.obj (.cons (s2l ("isOpen")) (.bool st.kp_some)
      (.cons (s2l ("isDatabaseLoaded")) (.bool st.kp_some)
        (.cons (s2l ("databaseName"))
          (.str (match st.database_path with
            | some p => if p.isEmpty then [] else basename p
            | none => []))
          .nil))), st)

/-- The `if action == ... elif ... else raise` routing inside
`handle_message`'s `try` block: an `.error` is an exception caught by the
surrounding `except`, which includes the unknown-action raise. -/
def routeAction (avail : Bool) (st : HostState) (action : Json) (data : Json) :
    Except (List Char) (Json × HostState) :=
  if action = .str (s2l ("test-connection")) then handle_test_connection avail st data
  else if action = .str (s2l ("get-credentials")) then handle_get_credentials avail st data
  else if action = .str (s2l ("get-status")) then handle_get_status avail st data
  else .error (s2l ("Unknown action: ") ++ pyStr action)

/-- The success envelope `handle_message` builds: `id` and `action` copied
from the request, `success: true`, and the handler result under `data`. -/
def successResponse (mid action result : Json) : Json :=
  .obj (.cons (s2l ("id")) mid
    (.cons (s2l ("action")) action
      (.cons (s2l ("success")) (.bool true)
        (.cons (s2l ("data")) result .nil))))

/-- The error envelope `handle_message` builds in its `except` clause:
`id` and `action` copied from the request, `success: false`, and `str(e)`
under `error`. -/
def errorResponse (mid action : Json) (e : List Char) : Json :=
  .obj (.cons (s2l ("id")) mid
    (.cons (s2l ("action")) action
      (.cons (s2l ("success")) (.bool false)
        (.cons (s2l ("error")) (.str e) .nil))))

/-- Model of `KeePassHost.handle_message`.  The envelope-field reads
(`message.get(...)`) happen before the `try` block, so on a non-dict
message the `AttributeError` escapes `handle_message` itself — the
`.error` case.  Inside the `try`, any handler exception `e` becomes the
error response with `str(e)` as message. -/
def handle_message (avail : Bool) (st : HostState) (message : Json) :
    Except (List Char) (Json × HostState) :=
  match message with
  | .obj kvs =>
    let mid := (kvLookup kvs (s2l ("id"))).getD .null
    let action := (kvLookup kvs (s2l ("action"))).getD .null
    let data := (kvLookup kvs (s2l ("data"))).getD (.obj .nil)
    match routeAction avail st action data with
    | .ok (result, st2) => .ok (successResponse mid action result, st2)
    | .error e => .ok (errorResponse mid action e, st)
  | _ => .error (attrGetError message)

/-- Why one iteration of `KeePassHost.run` ended the loop: `read_message`
returned `None` (clean end of stream or any decode failure), or an
exception escaped `handle_message` and was caught by `run`'s own
`except Exception` clause (logged as a fatal error; the process still
exits normally, so neither reason is an uncaught crash). -/
inductive StopReason where
  | streamEnd : StopReason
  | envelopeFault : StopReason
deriving DecidableEq

/-- Result of one iteration of the `while True` loop in
`KeePassHost.run`. -/
inductive StepRes where
  | stop : StopReason → StepRes
  | next : Json → HostState → List Nat → StepRes
deriving DecidableEq

/-- One iteration of `KeePassHost.run`: read a message (breaking on
`None`), dispatch it (an escaping exception ends the loop via `run`'s
`except`), and otherwise emit the response and continue. -/
def loopStep (avail : Bool) (st : HostState) (s : List Nat) : StepRes :=
  match read_message s with
  | (none, _) => .stop .streamEnd
  | (some m, s2) =>
    match handle_message avail st m with
    | .error _ => .stop .envelopeFault
    | .ok (resp, st2) => .next resp st2 s2

/-- The iterated session loop, collecting every byte written to stdout.
The fuel argument only bounds the number of iterations; each iteration
consumes at least one input byte, so any fuel above the stream length is
enough and the fuel-exhaustion case is unreachable from `run`. -/
def runLoop (avail : Bool) : Nat → HostState → List Nat → List Nat × StopReason
  | 0, _, _ => ([], .streamEnd)
  | fuel + 1, st, s =>
    match loopStep avail st s with
    | .stop r => ([], r)
    | .next resp st2 s2 =>
      let out := runLoop avail fuel st2 s2
      (send_message_bytes resp ++ out.1, out.2)

/-- Model of `KeePassHost.run` on a whole stdin byte stream: the bytes
written to stdout and how the loop ended. -/
def run (avail : Bool) (st : HostState) (s : List Nat) : List Nat × StopReason :=
  runLoop avail (s.length + 1) st s

/-- A valid envelope in the sense of the round-trip property: a
JSON-representable mapping (dict-shaped, hence no duplicate keys) with
fields `id` and `action`, and `data` or `success` (the latter alongside
`error` for responses). -/
def validEnvelope (m : Json) : Bool :=
  match m with
  | .obj kvs =>
    kwf kvs && kvHasKey kvs (s2l ("id")) && kvHasKey kvs (s2l ("action")) &&
      (kvHasKey kvs (s2l ("data")) || kvHasKey kvs (s2l ("success")))
  | _ => false

/-- Modelled from the spec: the credential-store backend collaborator
(`findEntriesByDomain`) is absent from the source — `pykeepass` is an
external package and the query at lines 143–153 of `keepass_host.py` is
commented out.  This variant of `handle_get_credentials` follows that
commented integration and the spec's collaborator interface: when a store
handle is open (`self.kp`), the backend is queried with the requested
domain and may fault; the fault propagates out of the handler like any
other exception. -/
def handle_get_credentials_backend (avail : Bool)
    (backend : List Char → Except (List Char) JsonList)
    (st : HostState) (data : Json) : Except (List Char) (Json × HostState) :=
  if !avail then .error (s2l ("PyKeePass not available"))
  else
    match pyGet data (s2l ("domain")) (.str []) with
    | .error e => .error e
    | .ok domain =>
      if !pyTruthy domain then .error (s2l ("Domain not provided"))
      else if st.kp_some then
        match backend (pyStr domain) with
        | .error e => .error e
        | .ok entries => .ok (.obj (.cons (s2l ("credentials")) (.arr entries) .nil), st)
      else .ok (.obj (.cons (s2l ("credentials")) (.arr .nil) .nil), st)

/-- Routing as in `routeAction`, with the spec-modelled backend-aware
credentials handler substituted. -/
def routeAction_backend (avail : Bool) (backend : List Char → Except (List Char) JsonList)
    (st : HostState) (action : Json) (data : Json) : Except (List Char) (Json × HostState) :=
  if action = .str (s2l ("test-connection")) then handle_test_connection avail st data
  else if action = .str (s2l ("get-credentials")) then handle_get_credentials_backend avail backend st data
  else if action = .str (s2l ("get-status")) then handle_get_status avail st data
  else .error (s2l ("Unknown action: ") ++ pyStr action)

/-- Every character is ASCII.  `json.dumps(..., ensure_ascii=True)` output
satisfies this, which is why its UTF-8 encoding is the identity on code
points. -/
def allAscii (cs : List Char) : Bool := cs.all (fun c => c.toNat < 128)

/-- The input cannot extend a just-parsed integer literal: it does not
start with a digit, a decimal point or an exponent marker.  Every
separator `json.dumps` emits after a number satisfies this. -/
def numSafe : List Char → Bool
  | [] => true
  | c :: _ => !(isDigitCh c || c = '.' || c = 'e' || c = 'E')

/-- Object spine as a raw pair list (the list CPython's `JSONObject` builds
before calling `dict(pairs)`). -/
def kvsToList : JsonKVs → List (List Char × Json)
  | .nil => []
  | .cons k v tl => (k, v) :: kvsToList tl

/-- Concatenation of object spines. -/
def kvAppend : JsonKVs → JsonKVs → JsonKVs
  | .nil, b => b
  | .cons k v tl, b => .cons k v (kvAppend tl b)

/-- `handle_message` over the spec-modelled backend-aware router: the
`except` clause turns any handler fault `e` — including a backend fault —
into an error response carrying `str(e)` verbatim. -/
def handle_message_backend (avail : Bool) (backend : List Char → Except (List Char) JsonList)
    (st : HostState) (message : Json) : Except (List Char) (Json × HostState) :=
  match message with
  | .obj kvs =>
    let mid := (kvLookup kvs (s2l ("id"))).getD .null
    let action := (kvLookup kvs (s2l ("action"))).getD .null
    let data := (kvLookup kvs (s2l ("data"))).getD (.obj .nil)
    match routeAction_backend avail backend st action data with
    | .ok (result, st2) => .ok (successResponse mid action result, st2)
    | .error e => .ok (errorResponse mid action e, st)
  | _ => .error (attrGetError message)

/-! Character and digit lemmas. -/

theorem toNat_ofNat_valid {n : Nat} (h : Nat.isValidChar n) : (Char.ofNat n).toNat = n := by
  simp [Char.ofNat, h, Char.toNat, Char.ofNatAux, UInt32.toNat, BitVec.toNat_ofNatLt]

theorem toNat_ofNat_small {n : Nat} (h : n < 55296) : (Char.ofNat n).toNat = n :=
  toNat_ofNat_valid (Or.inl h)

theorem natDigitsAux_zero (fuel : Nat) : natDigitsAux fuel 0 = [] := by
  cases fuel <;> simp [natDigitsAux]

theorem mem_natDigitsAux {fuel n : Nat} {c : Char} (h : c ∈ natDigitsAux fuel n) :
    48 ≤ c.toNat ∧ c.toNat ≤ 57 := by
  induction fuel generalizing n with
  | zero => simp [natDigitsAux] at h
  | succ f ih =>
    by_cases h0 : n = 0
    · simp [natDigitsAux, h0] at h
    · simp only [natDigitsAux, h0, if_false, List.mem_append, List.mem_singleton] at h
      rcases h with h | h
      · exact ih h
      · subst h
        rw [toNat_ofNat_small (by omega)]
        omega

theorem natDigitsAux_head {fuel n : Nat} (h1 : 1 ≤ n) (h2 : n ≤ fuel) :
    ∃ c cs, natDigitsAux fuel n = c :: cs ∧ 49 ≤ c.toNat ∧ c.toNat ≤ 57 := by
  induction fuel generalizing n with
  | zero => omega
  | succ f ih =>
    by_cases hsmall : n < 10
    · refine ⟨Char.ofNat (48 + n % 10), [], ?_, ?_, ?_⟩
      · simp [natDigitsAux, Nat.div_eq_of_lt hsmall, natDigitsAux_zero,
          (show ¬n = 0 by omega)]
      · rw [toNat_ofNat_small (by omega)]
        omega
      · rw [toNat_ofNat_small (by omega)]
        omega
    · obtain ⟨c, cs, hrec, hc1, hc2⟩ := @ih (n / 10) (by omega) (by omega)
      refine ⟨c, cs ++ [Char.ofNat (48 + n % 10)], ?_, hc1, hc2⟩
      simp [natDigitsAux, (show ¬n = 0 by omega), hrec]

theorem digitsVal_append (xs : List Char) (d : Char) :
    digitsVal (xs ++ [d]) = 10 * digitsVal xs + (d.toNat - 48) := by
  simp [digitsVal, List.foldl_append]

theorem digitsVal_natDigitsAux {fuel n : Nat} (h : n ≤ fuel) :
    digitsVal (natDigitsAux fuel n) = n := by
  induction fuel generalizing n with
  | zero =>
    have h0 : n = 0 := by omega
    simp [h0, natDigitsAux, digitsVal]
  | succ f ih =>
    by_cases h0 : n = 0
    · simp [h0, natDigitsAux_zero, digitsVal]
    · have hdiv : n / 10 ≤ f := by omega
      rw [natDigitsAux, if_neg h0, digitsVal_append, ih hdiv,
        toNat_ofNat_small (show 48 + n % 10 < 55296 by omega)]
      omega

theorem mem_natChars {n : Nat} {c : Char} (h : c ∈ natChars n) :
    48 ≤ c.toNat ∧ c.toNat ≤ 57 := by
  by_cases h0 : n = 0
  · simp [natChars, h0] at h
    subst h
    constructor <;> decide
  · simp [natChars, h0] at h
    exact mem_natDigitsAux h

theorem natChars_head (n : Nat) :
    ∃ c cs, natChars n = c :: cs ∧ 48 ≤ c.toNat ∧ c.toNat ≤ 57 := by
  by_cases h0 : n = 0
  · exact ⟨'0', [], by simp [natChars, h0], by decide, by decide⟩
  · obtain ⟨c, cs, h, h1, h2⟩ := @natDigitsAux_head n n (by omega) le_rfl
    exact ⟨c, cs, by simp [natChars, h0, h], by omega, h2⟩

theorem digitsVal_natChars (n : Nat) : digitsVal (natChars n) = n := by
  by_cases h0 : n = 0
  · simp [natChars, h0, digitsVal]
  · simp [natChars, h0, digitsVal_natDigitsAux le_rfl]

theorem isDigitCh_iff {c : Char} : isDigitCh c = true ↔ 48 ≤ c.toNat ∧ c.toNat ≤ 57 := by
  simp [isDigitCh]

theorem takeWhile_append_all {α : Type} {p : α → Bool} {xs ys : List α}
    (h : ∀ a ∈ xs, p a = true) (h2 : ∀ a, ys.head? = some a → p a = false) :
    (xs ++ ys).takeWhile p = xs ∧ (xs ++ ys).dropWhile p = ys := by
  induction xs with
  | nil =>
    simp only [List.nil_append]
    cases ys with
    | nil => simp
    | cons y ys => simp [List.takeWhile, List.dropWhile, h2 y rfl]
  | cons x xs ih =>
    have hx : p x = true := h x (by simp)
    have := ih (fun a ha => h a (by simp [ha]))
    simp [List.takeWhile, List.dropWhile, hx, this.1, this.2]

/-! Number parsing round trip. -/

theorem parseIntBody_natChars {n : Nat} {rest : List Char}
    (hrest : ∀ c, rest.head? = some c → isDigitCh c = false) :
    parseIntBody (natChars n ++ rest) = some (n, rest) := by
  by_cases h0 : n = 0
  · subst h0
    have hz : natChars 0 = [ '0' ] := by simp [natChars]
    rw [hz]
    simp [parseIntBody]
  · obtain ⟨c, cs, hh, h49, h57⟩ :=
      @natDigitsAux_head n n (show 1 ≤ n by omega) le_rfl
    have hn : natChars n = c :: cs := by simp [natChars, h0, hh]
    have hcs : ∀ a ∈ cs, isDigitCh a = true := by
      intro a ha
      have ham : a ∈ natChars n := by
        rw [hn]
        simp [ha]
      exact isDigitCh_iff.mpr (mem_natChars ham)
    have htk := takeWhile_append_all hcs hrest
    rw [hn, List.cons_append]
    have hc0 : ¬(c = '0') := by
      intro hc
      rw [hc] at h49
      have h48 : ('0' : Char).toNat = 48 := by decide
      omega
    have hcd : isDigitCh c = true := isDigitCh_iff.mpr ⟨by omega, h57⟩
    simp only [parseIntBody, hc0, if_false, hcd, if_true]
    rw [htk.1, htk.2]
    have hdv : digitsVal (c :: cs) = n := by
      rw [← hn]
      exact digitsVal_natChars n
    rw [hdv]

theorem numSafe_head_not_digit {rest : List Char} (h : numSafe rest = true) :
    ∀ c, rest.head? = some c → isDigitCh c = false := by
  intro c hc
  cases rest with
  | nil => simp at hc
  | cons r rs =>
    simp at hc
    subst hc
    simp [numSafe] at h
    simp [h.1]

theorem numSafe_not_floatFollow {rest : List Char} (h : numSafe rest = true) :
    floatFollow rest = false := by
  cases rest with
  | nil => simp [floatFollow]
  | cons r rs =>
    simp [numSafe] at h
    simp [floatFollow]
    tauto

theorem parseNumber_intChars {n : Int} {rest : List Char} (h : numSafe rest = true) :
    parseNumber (intChars n ++ rest) = some (n, rest) := by
  have hdig := numSafe_head_not_digit h
  have hff := numSafe_not_floatFollow h
  by_cases hneg : n < 0
  · have hn : intChars n = '-' :: natChars (-n).toNat := by simp [intChars, hneg]
    rw [hn, List.cons_append]
    have hbody := @parseIntBody_natChars ((-n).toNat) rest hdig
    simp [parseNumber, hbody, hff]
    omega
  · have hn : intChars n = natChars n.toNat := by simp [intChars, hneg]
    obtain ⟨c, cs, hh, h1, h2⟩ := natChars_head n.toNat
    have hcm : ¬(c = '-') := by
      intro hc
      rw [hc] at h1
      have h45 : ('-' : Char).toNat = 45 := by decide
      omega
    rw [hn, hh, List.cons_append]
    have hbody := @parseIntBody_natChars n.toNat rest hdig
    rw [hh, List.cons_append] at hbody
    simp [parseNumber, hcm, hbody, hff]
    omega

/-! String escaping round trip. -/

theorem char_valid (c : Char) : Nat.isValidChar c.toNat := by
  have h := c.valid
  simp [UInt32.isValidChar, Nat.isValidChar] at h ⊢
  rcases h with h | h
  · left
    exact h
  · right
    exact h

theorem char_toNat_lt (c : Char) : c.toNat < 1114112 := by
  rcases char_valid c with h | h
  · omega
  · omega

theorem char_not_surrogate (c : Char) : c.toNat < 55296 ∨ 57343 < c.toNat := by
  rcases char_valid c with h | h
  · left
    exact h
  · right
    omega

theorem hexVal_hexDigitChar : ∀ d, d < 16 → hexVal (hexDigitChar d) = some d := by
  decide

theorem hex4_toHex4 {n : Nat} (h : n < 65536) :
    hex4 (hexDigitChar (n / 4096 % 16)) (hexDigitChar (n / 256 % 16))
      (hexDigitChar (n / 16 % 16)) (hexDigitChar (n % 16)) = some n := by
  have h16 : (0 : Nat) < 16 := by norm_num
  have e3 := hexVal_hexDigitChar (n / 4096 % 16) (Nat.mod_lt _ h16)
  have e2 := hexVal_hexDigitChar (n / 256 % 16) (Nat.mod_lt _ h16)
  have e1 := hexVal_hexDigitChar (n / 16 % 16) (Nat.mod_lt _ h16)
  have e0 := hexVal_hexDigitChar (n % 16) (Nat.mod_lt _ h16)
  simp [hex4, e3, e2, e1, e0]
  omega

theorem escChar_shape (c : Char) : escChar c = [ c ] ∨ ∃ t, escChar c = '\\' :: t := by
  rw [escChar]
  by_cases h1 : c = '"'
  · rw [if_pos h1]
    exact Or.inr ⟨_, rfl⟩
  rw [if_neg h1]
  by_cases h2 : c = '\\'
  · rw [if_pos h2]
    exact Or.inr ⟨_, rfl⟩
  rw [if_neg h2]
  by_cases h3 : c = Char.ofNat 8
  · rw [if_pos h3]
    exact Or.inr ⟨_, rfl⟩
  rw [if_neg h3]
  by_cases h4 : c = Char.ofNat 12
  · rw [if_pos h4]
    exact Or.inr ⟨_, rfl⟩
  rw [if_neg h4]
  by_cases h5 : c = Char.ofNat 10
  · rw [if_pos h5]
    exact Or.inr ⟨_, rfl⟩
  rw [if_neg h5]
  by_cases h6 : c = Char.ofNat 13
  · rw [if_pos h6]
    exact Or.inr ⟨_, rfl⟩
  rw [if_neg h6]
  by_cases h7 : c = Char.ofNat 9
  · rw [if_pos h7]
    exact Or.inr ⟨_, rfl⟩
  rw [if_neg h7]
  by_cases h8 : c.toNat < 32
  · rw [if_pos h8]
    exact Or.inr ⟨_, rfl⟩
  rw [if_neg h8]
  by_cases h9 : c.toNat ≤ 126
  · rw [if_pos h9]
    exact Or.inl rfl
  rw [if_neg h9]
  by_cases h10 : c.toNat < 65536
  · rw [if_pos h10]
    exact Or.inr ⟨_, rfl⟩
  · rw [if_neg h10]
    exact Or.inr ⟨_, rfl⟩

theorem escChar_length_pos (c : Char) : 0 < (escChar c).length := by
  rcases escChar_shape c with h | ⟨t, h⟩ <;> rw [h] <;> simp


theorem escString_length {s : List Char} : s.length ≤ (escString s).length := by
  induction s with
  | nil => simp [escString]
  | cons c cs ih =>
    have := escChar_length_pos c
    simp [escString]
    omega

theorem parseEscape_uEq (X : List Char) : parseEscape ('u' :: X) = parseUEscape X := by
  rw [parseEscape, if_pos rfl]

theorem parseEscape_hex {n : Nat} {X : List Char} (h1 : n < 65536)
    (h2 : ¬(55296 ≤ n ∧ n ≤ 56319)) (h3 : ¬(56320 ≤ n ∧ n ≤ 57343)) :
    parseEscape ('u' :: (toHex4 n ++ X)) = some (Char.ofNat n, X) := by
  simp only [toHex4, List.cons_append, List.nil_append]
  rw [parseEscape_uEq, parseUEscape, hex4_toHex4 h1]
  dsimp only
  rw [if_neg h2, if_neg h3]

theorem parseUEscape_pair {a b c d a2 b2 c2 d2 : Char} {hi lo : Nat} {X : List Char}
    (hha : hex4 a b c d = some hi) (hhb : hex4 a2 b2 c2 d2 = some lo)
    (hhi : 55296 ≤ hi ∧ hi ≤ 56319) (hlo : 56320 ≤ lo ∧ lo ≤ 57343) :
    parseUEscape (a :: b :: c :: d :: '\\' :: 'u' :: a2 :: b2 :: c2 :: d2 :: X) =
      some (Char.ofNat (65536 + (hi - 55296) * 1024 + (lo - 56320)), X) := by
  rw [parseUEscape, hha]
  dsimp only
  rw [if_pos hhi, parseLowSurrogate, if_pos ⟨rfl, rfl⟩, hhb]
  dsimp only
  rw [if_pos hlo]

theorem parseEscape_surrogatePair {t : Nat} {X : List Char}
    (h1 : 65536 ≤ t) (h2 : t < 1114112) :
    parseEscape ('u' :: (toHex4 (55296 + (t - 65536) / 1024) ++
      ('\\' :: 'u' :: (toHex4 (56320 + (t - 65536) % 1024) ++ X)))) =
      some (Char.ofNat t, X) := by
  have hmod := Nat.mod_lt (t - 65536) (show 0 < 1024 by norm_num)
  have hdiv : (t - 65536) / 1024 ≤ 1023 := by omega
  have hhi : 55296 + (t - 65536) / 1024 < 65536 := by omega
  have hlo : 56320 + (t - 65536) % 1024 < 65536 := by omega
  simp only [toHex4, List.cons_append, List.nil_append]
  rw [parseEscape_uEq]
  rw [parseUEscape_pair (hex4_toHex4 hhi) (hex4_toHex4 hlo)
    ⟨by omega, by omega⟩ ⟨by omega, by omega⟩]
  have hrecon : 65536 + (55296 + (t - 65536) / 1024 - 55296) * 1024 +
      (56320 + (t - 65536) % 1024 - 56320) = t := by omega
  rw [hrecon]


theorem parseEscape_named {e c2 : Char} {X : List Char} (hne : ¬(e = 'u'))
    (hesc : escCharOf e = some c2) : parseEscape (e :: X) = some (c2, X) := by
  rw [parseEscape, if_neg hne, hesc]

theorem parseStringF_backslash {f : Nat} {Y X s1 r1 : List Char} {c2 : Char}
    (hesc : parseEscape Y = some (c2, X))
    (hX : parseStringF f X = some (s1, r1)) :
    parseStringF (f + 1) ('\\' :: Y) = some (c2 :: s1, r1) := by
  rw [parseStringF, if_neg (by decide), if_pos rfl, hesc]
  dsimp only
  rw [hX]
  rfl

theorem parseStringF_plain {f : Nat} {X s1 r1 : List Char} {c : Char}
    (h1 : ¬(c = '"')) (h2 : ¬(c = '\\')) (h3 : ¬(c.toNat < 32))
    (hX : parseStringF f X = some (s1, r1)) :
    parseStringF (f + 1) (c :: X) = some (c :: s1, r1) := by
  simp [parseStringF, h1, h2, h3, hX]

theorem parseStringF_escChar {c : Char} {f : Nat} {X s1 r1 : List Char}
    (hX : parseStringF f X = some (s1, r1)) :
    parseStringF (f + 1) (escChar c ++ X) = some (c :: s1, r1) := by
  by_cases h1 : c = '"'
  · subst h1
    rw [(show escChar '"' ++ X = '\\' :: ([ '"' ] ++ X) by simp [escChar])]
    exact parseStringF_backslash (by simp [parseEscape, escCharOf]) hX
  by_cases h2 : c = '\\'
  · subst h2
    rw [(show escChar '\\' ++ X = '\\' :: ([ '\\' ] ++ X) by simp [escChar])]
    exact parseStringF_backslash (by simp [parseEscape, escCharOf]) hX
  by_cases h3 : c = Char.ofNat 8
  · subst h3
    rw [(show escChar (Char.ofNat 8) ++ X = '\\' :: ([ 'b' ] ++ X) by simp [escChar])]
    exact parseStringF_backslash (by simp [parseEscape, escCharOf]) hX
  by_cases h4 : c = Char.ofNat 12
  · subst h4
    rw [(show escChar (Char.ofNat 12) ++ X = '\\' :: ([ 'f' ] ++ X) by simp [escChar])]
    exact parseStringF_backslash (by simp [parseEscape, escCharOf]) hX
  by_cases h5 : c = Char.ofNat 10
  · subst h5
    rw [(show escChar (Char.ofNat 10) ++ X = '\\' :: ([ 'n' ] ++ X) by simp [escChar])]
    exact parseStringF_backslash (by simp [parseEscape, escCharOf]) hX
  by_cases h6 : c = Char.ofNat 13
  · subst h6
    rw [(show escChar (Char.ofNat 13) ++ X = '\\' :: ([ 'r' ] ++ X) by simp [escChar])]
    exact parseStringF_backslash (by simp [parseEscape, escCharOf]) hX
  by_cases h7 : c = Char.ofNat 9
  · subst h7
    rw [(show escChar (Char.ofNat 9) ++ X = '\\' :: ([ 't' ] ++ X) by simp [escChar])]
    exact parseStringF_backslash (by simp [parseEscape, escCharOf]) hX
  by_cases h8 : c.toNat < 32
  · have hesc : escChar c ++ X = '\\' :: (('u' :: toHex4 c.toNat) ++ X) := by
      rw [escChar, if_neg h1, if_neg h2, if_neg h3, if_neg h4, if_neg h5, if_neg h6, if_neg h7,
        if_pos h8]
      simp
    rw [hesc]
    have := @parseEscape_hex c.toNat X (by omega)
      (by omega) (by omega)
    rw [Char.ofNat_toNat] at this
    exact parseStringF_backslash (by simpa using this) hX
  by_cases h9 : c.toNat ≤ 126
  · have hesc : escChar c ++ X = c :: X := by
      rw [escChar, if_neg h1, if_neg h2, if_neg h3, if_neg h4, if_neg h5, if_neg h6, if_neg h7,
        if_neg h8, if_pos h9]
      simp
    rw [hesc]
    exact parseStringF_plain h1 h2 h8 hX
  by_cases h10 : c.toNat < 65536
  · have hesc : escChar c ++ X = '\\' :: (('u' :: toHex4 c.toNat) ++ X) := by
      rw [escChar, if_neg h1, if_neg h2, if_neg h3, if_neg h4, if_neg h5, if_neg h6, if_neg h7,
        if_neg h8, if_neg h9, if_pos h10]
      simp
    rw [hesc]
    rcases char_not_surrogate c with hs | hs
    · have := @parseEscape_hex c.toNat X h10 (by omega) (by omega)
      rw [Char.ofNat_toNat] at this
      exact parseStringF_backslash (by simpa using this) hX
    · have := @parseEscape_hex c.toNat X h10 (by omega) (by omega)
      rw [Char.ofNat_toNat] at this
      exact parseStringF_backslash (by simpa using this) hX
  · have hesc : escChar c ++ X =
        '\\' :: (('u' :: (toHex4 (55296 + (c.toNat - 65536) / 1024) ++
          ('\\' :: 'u' :: (toHex4 (56320 + (c.toNat - 65536) % 1024) ++ X))))) := by
      rw [escChar, if_neg h1, if_neg h2, if_neg h3, if_neg h4, if_neg h5, if_neg h6, if_neg h7,
        if_neg h8, if_neg h9, if_neg h10]
      simp
    rw [hesc]
    have := @parseEscape_surrogatePair c.toNat X (by omega) (char_toNat_lt c)
    rw [Char.ofNat_toNat] at this
    exact parseStringF_backslash this hX

theorem parseStringF_escString {s rest : List Char} {fuel : Nat} (h : s.length < fuel) :
    parseStringF fuel (escString s ++ '"' :: rest) = some (s, rest) := by
  induction s generalizing fuel with
  | nil =>
    cases fuel with
    | zero => omega
    | succ f => simp [escString, parseStringF]
  | cons c cs ih =>
    cases fuel with
    | zero => simp at h
    | succ f =>
      have hih := @ih f (by simp at h; omega)
      have hsh : escString (c :: cs) ++ '"' :: rest =
          escChar c ++ (escString cs ++ '"' :: rest) := by
        simp [escString]
      rw [hsh]
      exact parseStringF_escChar hih

theorem parseString_escString {s rest : List Char} :
    parseString (escString s ++ '"' :: rest) = some (s, rest) := by
  have hlen : s.length < (escString s ++ '"' :: rest).length + 1 := by
    have := @escString_length s
    simp
    omega
  exact parseStringF_escString hlen


/-! The encoder output is ASCII, and UTF-8 is the identity on it. -/

theorem mem_toHex4_ascii {n : Nat} {a : Char} (h : a ∈ toHex4 n) : a.toNat < 128 := by
  have hd : ∀ d, d < 16 → (hexDigitChar d).toNat < 128 := by decide
  simp only [toHex4, List.mem_cons, List.not_mem_nil, or_false] at h
  rcases h with h | h | h | h <;> subst h <;> exact hd _ (Nat.mod_lt _ (by norm_num))

theorem mem_escChar_ascii {c a : Char} (h : a ∈ escChar c) : a.toNat < 128 := by
  rw [escChar] at h
  by_cases h1 : c = '"'
  · rw [if_pos h1] at h
    rcases List.mem_pair.mp h with h | h <;> subst h <;> decide
  rw [if_neg h1] at h
  by_cases h2 : c = '\\'
  · rw [if_pos h2] at h
    rcases List.mem_pair.mp h with h | h <;> subst h <;> decide
  rw [if_neg h2] at h
  by_cases h3 : c = Char.ofNat 8
  · rw [if_pos h3] at h
    rcases List.mem_pair.mp h with h | h <;> subst h <;> decide
  rw [if_neg h3] at h
  by_cases h4 : c = Char.ofNat 12
  · rw [if_pos h4] at h
    rcases List.mem_pair.mp h with h | h <;> subst h <;> decide
  rw [if_neg h4] at h
  by_cases h5 : c = Char.ofNat 10
  · rw [if_pos h5] at h
    rcases List.mem_pair.mp h with h | h <;> subst h <;> decide
  rw [if_neg h5] at h
  by_cases h6 : c = Char.ofNat 13
  · rw [if_pos h6] at h
    rcases List.mem_pair.mp h with h | h <;> subst h <;> decide
  rw [if_neg h6] at h
  by_cases h7 : c = Char.ofNat 9
  · rw [if_pos h7] at h
    rcases List.mem_pair.mp h with h | h <;> subst h <;> decide
  rw [if_neg h7] at h
  by_cases h8 : c.toNat < 32
  · rw [if_pos h8] at h
    simp only [List.mem_cons] at h
    rcases h with h | h | h
    · subst h
      decide
    · subst h
      decide
    · exact mem_toHex4_ascii h
  rw [if_neg h8] at h
  by_cases h9 : c.toNat ≤ 126
  · rw [if_pos h9] at h
    rcases List.mem_singleton.mp h with h
    subst h
    omega
  rw [if_neg h9] at h
  by_cases h10 : c.toNat < 65536
  · rw [if_pos h10] at h
    simp only [List.mem_cons] at h
    rcases h with h | h | h
    · subst h
      decide
    · subst h
      decide
    · exact mem_toHex4_ascii h
  · rw [if_neg h10] at h
    simp only [List.cons_append, List.mem_cons, List.mem_append] at h
    rcases h with h | h | h
    · subst h
      decide
    · subst h
      decide
    · rcases h with h | h
      · exact mem_toHex4_ascii h
      · rcases h with h | h | h
        · subst h
          decide
        · subst h
          decide
        · exact mem_toHex4_ascii h

theorem mem_escString_ascii {s : List Char} {a : Char} (h : a ∈ escString s) :
    a.toNat < 128 := by
  induction s with
  | nil => simp [escString] at h
  | cons c cs ih =>
    simp only [escString, List.mem_append] at h
    rcases h with h | h
    · exact mem_escChar_ascii h
    · exact ih h

theorem mem_intChars_ascii {n : Int} {a : Char} (h : a ∈ intChars n) : a.toNat < 128 := by
  rw [intChars] at h
  by_cases hn : n < 0
  · rw [if_pos hn] at h
    rcases List.mem_cons.mp h with h | h
    · subst h
      decide
    · have := mem_natChars h
      omega
  · rw [if_neg hn] at h
    have := mem_natChars h
    omega

mutual

theorem dumps_ascii (v : Json) : ∀ a ∈ dumps v, a.toNat < 128 := by
  cases v with
  | null => decide
  | bool b => cases b <;> decide
  | num n =>
    intro a ha
    rw [dumps] at ha
    exact mem_intChars_ascii ha
  | str s =>
    rw [dumps]
    refine List.forall_mem_cons.mpr ⟨by decide, List.forall_mem_append.mpr ⟨?_, by decide⟩⟩
    intro a ha
    exact mem_escString_ascii ha
  | arr xs =>
    cases xs with
    | nil => decide
    | cons v vs =>
      rw [dumps]
      exact List.forall_mem_cons.mpr ⟨by decide,
        List.forall_mem_append.mpr ⟨List.forall_mem_append.mpr ⟨dumps_ascii v,
          dumpsElems_ascii vs⟩, by decide⟩⟩
  | obj kvs =>
    cases kvs with
    | nil => decide
    | cons k v kvs =>
      rw [dumps]
      refine List.forall_mem_cons.mpr ⟨by decide, List.forall_mem_cons.mpr ⟨by decide,
        List.forall_mem_append.mpr ⟨?_, List.forall_mem_cons.mpr ⟨by decide,
          List.forall_mem_cons.mpr ⟨by decide, List.forall_mem_cons.mpr ⟨by decide,
            List.forall_mem_append.mpr ⟨List.forall_mem_append.mpr ⟨dumps_ascii v,
              dumpsKVs_ascii kvs⟩, by decide⟩⟩⟩⟩⟩⟩⟩
      intro a ha
      exact mem_escString_ascii ha
termination_by structural v

theorem dumpsElems_ascii (l : JsonList) : ∀ a ∈ dumpsElems l, a.toNat < 128 := by
  cases l with
  | nil => decide
  | cons v vs =>
    rw [dumpsElems]
    exact List.forall_mem_cons.mpr ⟨by decide, List.forall_mem_cons.mpr ⟨by decide,
      List.forall_mem_append.mpr ⟨dumps_ascii v, dumpsElems_ascii vs⟩⟩⟩
termination_by structural l

theorem dumpsKVs_ascii (l : JsonKVs) : ∀ a ∈ dumpsKVs l, a.toNat < 128 := by
  cases l with
  | nil => decide
  | cons k v kvs =>
    rw [dumpsKVs]
    refine List.forall_mem_cons.mpr ⟨by decide, List.forall_mem_cons.mpr ⟨by decide,
      List.forall_mem_cons.mpr ⟨by decide,
        List.forall_mem_append.mpr ⟨?_, List.forall_mem_cons.mpr ⟨by decide,
          List.forall_mem_cons.mpr ⟨by decide, List.forall_mem_cons.mpr ⟨by decide,
            List.forall_mem_append.mpr ⟨dumps_ascii v, dumpsKVs_ascii kvs⟩⟩⟩⟩⟩⟩⟩⟩
    intro a ha
    exact mem_escString_ascii ha
termination_by structural l

end

theorem utf8Encode_ascii {s : List Char} (h : ∀ a ∈ s, a.toNat < 128) :
    utf8Encode s = s.map Char.toNat := by
  induction s with
  | nil => simp [utf8Encode]
  | cons c cs ih =>
    have hc : c.toNat < 128 := h c (by simp)
    rw [utf8Encode, List.map_cons, ← ih (fun a ha => h a (by simp [ha]))]
    rw [utf8EncodeChar, if_pos hc]
    rfl

theorem utf8Step_ascii {b : Nat} {rest : List Nat} (h : b < 128) :
    utf8Step (b :: rest) = some (Char.ofNat b, rest) := by
  rw [utf8Step, if_pos h]

theorem utf8DecodeF_step {f b : Nat} {rest rest2 : List Nat} {c : Char}
    (hstep : utf8Step (b :: rest) = some (c, rest2)) :
    utf8DecodeF (f + 1) (b :: rest) = (utf8DecodeF f rest2).map (fun s => c :: s) := by
  rw [utf8DecodeF, hstep]

theorem utf8DecodeF_map_ascii {s : List Char} {fuel : Nat} (hf : s.length < fuel)
    (h : ∀ a ∈ s, a.toNat < 128) :
    utf8DecodeF fuel (s.map Char.toNat) = some s := by
  induction s generalizing fuel with
  | nil =>
    cases fuel with
    | zero => omega
    | succ f => rfl
  | cons c cs ih =>
    cases fuel with
    | zero => simp at hf
    | succ f =>
      have hc : c.toNat < 128 := h c (by simp)
      rw [List.map_cons, utf8DecodeF_step (utf8Step_ascii hc)]
      rw [ih (by rw [List.length_cons] at hf; omega) (fun a ha => h a (by simp [ha]))]
      rw [Char.ofNat_toNat]
      rfl

theorem utf8Decode_map_ascii {s : List Char} (h : ∀ a ∈ s, a.toNat < 128) :
    utf8Decode (s.map Char.toNat) = some s := by
  rw [utf8Decode]
  exact utf8DecodeF_map_ascii (by simp) h

theorem utf8Decode_encode_ascii {s : List Char} (h : ∀ a ∈ s, a.toNat < 128) :
    utf8Decode (utf8Encode s) = some s := by
  rw [utf8Encode_ascii h, utf8Decode_map_ascii h]

/-! The frame header round trip. -/

theorem le32_round {n : Nat} (h : n < 4294967296) :
    le32Dec (n % 256) (n / 256 % 256) (n / 65536 % 256) (n / 16777216 % 256) = n := by
  rw [le32Dec]
  omega

theorem read_message_frame {p rest : List Nat} (h : p.length < 4294967296) :
    read_message (le32Enc p.length ++ (p ++ rest)) =
      ((match decodePayload p with
        | none => none
        | some v => if v = Json.null then none else some v), rest) := by
  rw [le32Enc]
  simp only [List.cons_append, List.nil_append]
  rw [read_message]
  rw [le32_round h]
  rw [List.take_left, List.drop_left]
  cases decodePayload p <;> rfl

/-! Whitespace and branch-dispatch helpers for the parser. -/

theorem isWs_false_ge34 {c : Char} (h : 34 ≤ c.toNat) : isWs c = false := by
  simp only [isWs, Bool.or_eq_false_iff, decide_eq_false_iff_not]
  refine ⟨⟨⟨?_, ?_⟩, ?_⟩, ?_⟩ <;> intro hc <;> subst hc <;> exact absurd h (by decide)

theorem skipWs_cons {c : Char} {r : List Char} (h : isWs c = false) :
    skipWs (c :: r) = c :: r := by
  simp [skipWs, List.dropWhile_cons, h]

theorem ne_of_toNat_ne {c d : Char} (h : c.toNat ≠ d.toNat) : ¬(c = d) := by
  intro hc
  subst hc
  exact h rfl

theorem numSafe_comma {r : List Char} : numSafe (',' :: r) = true := rfl

theorem numSafe_rbracket {r : List Char} : numSafe (']' :: r) = true := rfl

theorem numSafe_rbrace {r : List Char} : numSafe ('}' :: r) = true := rfl

/-! One unfolding lemma per `parseValue` head shape, each proved in a small
context so the kernel stays happy. -/

theorem parseValue_brace_general {f : Nat} {Y : List Char} :
    parseValue (f + 1) ('{' :: Y) =
      (if (skipWs Y).head? = some '}' then some (.obj .nil, (skipWs Y).tail)
       else (parseMembers f (skipWs Y)).map (fun p => (Json.obj (pyDictOf p.1 .nil), p.2))) := by
  rw [parseValue, skipWs_cons (by decide)]
  rfl

theorem parseValue_bracket_general {f : Nat} {Y : List Char} :
    parseValue (f + 1) ('[' :: Y) =
      (if (skipWs Y).head? = some ']' then some (.arr .nil, (skipWs Y).tail)
       else (parseElems f (skipWs Y)).map (fun p => (Json.arr p.1, p.2))) := by
  rw [parseValue, skipWs_cons (by decide)]
  rfl

theorem parseValue_braces {f : Nat} {rest : List Char} :
    parseValue (f + 1) ('{' :: '}' :: rest) = some (.obj .nil, rest) := by
  rw [parseValue_brace_general, skipWs_cons (by decide)]
  rfl

theorem parseValue_obj_members {f : Nat} {X : List Char} :
    parseValue (f + 1) ('{' :: '"' :: X) =
      (parseMembers f ('"' :: X)).map (fun p => (Json.obj (pyDictOf p.1 .nil), p.2)) := by
  rw [parseValue_brace_general, skipWs_cons (by decide)]
  rfl

theorem parseValue_brackets {f : Nat} {rest : List Char} :
    parseValue (f + 1) ('[' :: ']' :: rest) = some (.arr .nil, rest) := by
  rw [parseValue_bracket_general, skipWs_cons (by decide)]
  rfl

theorem parseValue_arr_items {f : Nat} {c : Char} {X : List Char}
    (hws : isWs c = false) (hne : ¬(c = ']')) :
    parseValue (f + 1) ('[' :: c :: X) =
      (parseElems f (c :: X)).map (fun p => (Json.arr p.1, p.2)) := by
  rw [parseValue_bracket_general, skipWs_cons hws]
  rw [if_neg (by simp [List.head?, hne])]

theorem parseValue_quote {f : Nat} {X : List Char} :
    parseValue (f + 1) ('"' :: X) =
      (parseString X).map (fun p => (Json.str p.1, p.2)) := by
  rw [parseValue, skipWs_cons (by decide)]
  rfl

theorem parseValue_null {f : Nat} {rest : List Char} :
    parseValue (f + 1) ('n' :: 'u' :: 'l' :: 'l' :: rest) = some (.null, rest) := by
  rw [parseValue, skipWs_cons (by decide)]
  rfl

theorem parseValue_true {f : Nat} {rest : List Char} :
    parseValue (f + 1) ('t' :: 'r' :: 'u' :: 'e' :: rest) = some (.bool true, rest) := by
  rw [parseValue, skipWs_cons (by decide)]
  rfl

theorem parseValue_false {f : Nat} {rest : List Char} :
    parseValue (f + 1) ('f' :: 'a' :: 'l' :: 's' :: 'e' :: rest) =
      some (.bool false, rest) := by
  rw [parseValue, skipWs_cons (by decide)]
  rfl

theorem parseValue_number {f : Nat} {c : Char} {X : List Char}
    (hc : 45 = c.toNat ∨ (48 ≤ c.toNat ∧ c.toNat ≤ 57)) :
    parseValue (f + 1) (c :: X) =
      (parseNumber (c :: X)).map (fun p => (Json.num p.1, p.2)) := by
  have hws : isWs c = false := isWs_false_ge34 (by omega)
  rw [parseValue, skipWs_cons hws]
  have hbrace : ('{' : Char).toNat = 123 := by decide
  have hbracket : ('[' : Char).toNat = 91 := by decide
  have hquote : ('"' : Char).toNat = 34 := by decide
  have hn : ('n' : Char).toNat = 110 := by decide
  have ht : ('t' : Char).toNat = 116 := by decide
  have hf : ('f' : Char).toNat = 102 := by decide
  dsimp only
  rw [if_neg (ne_of_toNat_ne (by omega)), if_neg (ne_of_toNat_ne (by omega)),
    if_neg (ne_of_toNat_ne (by omega)), if_neg (ne_of_toNat_ne (by omega)),
    if_neg (ne_of_toNat_ne (by omega)), if_neg (ne_of_toNat_ne (by omega))]

/-! Step lemmas for the list and member parsers. -/

theorem parseElems_step {f : Nat} {cs rest : List Char} {v : Json}
    (h : parseValue f cs = some (v, rest)) :
    parseElems (f + 1) cs =
      (if (skipWs rest).head? = some ',' then
        (parseElems f (skipWs (skipWs rest).tail)).map (fun p => (JsonList.cons v p.1, p.2))
      else if (skipWs rest).head? = some ']' then some (JsonList.cons v .nil, (skipWs rest).tail)
      else none) := by
  rw [parseElems, h]

theorem parseMembers_step {f : Nat} {cs cs2 : List Char} {k : List Char}
    (h1 : cs.head? = some '"') (h2 : parseString cs.tail = some (k, cs2)) :
    parseMembers (f + 1) cs =
      (if (skipWs cs2).head? = some ':' then
        match parseValue f (skipWs (skipWs cs2).tail) with
        | none => none
        | some (v, cs4) =>
          if (skipWs cs4).head? = some ',' then
            (parseMembers f (skipWs (skipWs cs4).tail)).map (fun p => ((k, v) :: p.1, p.2))
          else if (skipWs cs4).head? = some '}' then some ([(k, v)], (skipWs cs4).tail)
          else none
      else none) := by
  rw [parseMembers, if_pos h1, h2]

/-! Rebuilding a dict from its printed pair list. -/

theorem kvAppend_nil_right (a : JsonKVs) : kvAppend a .nil = a := by
  cases a with
  | nil => rfl
  | cons k v tl => rw [kvAppend, kvAppend_nil_right tl]
termination_by structural a

theorem kvAppend_assoc (a b c : JsonKVs) :
    kvAppend (kvAppend a b) c = kvAppend a (kvAppend b c) := by
  cases a with
  | nil => rfl
  | cons k v tl => rw [kvAppend, kvAppend, kvAppend, kvAppend_assoc tl b c]
termination_by structural a

theorem kvHasKey_kvAppend (a : JsonKVs) {b : JsonKVs} {key : List Char} :
    kvHasKey (kvAppend a b) key = (kvHasKey a key || kvHasKey b key) := by
  cases a with
  | nil => rw [kvAppend, kvHasKey, Bool.false_or]
  | cons k v tl => rw [kvAppend, kvHasKey, kvHasKey, kvHasKey_kvAppend tl, Bool.or_assoc]
termination_by structural a

theorem insertKV_fresh (acc : JsonKVs) {k : List Char} {v : Json}
    (h : kvHasKey acc k = false) :
    insertKV acc k v = kvAppend acc (.cons k v .nil) := by
  cases acc with
  | nil => rfl
  | cons k0 v0 tl =>
    rw [kvHasKey, Bool.or_eq_false_iff] at h
    rw [insertKV, if_neg (by simpa using h.1), kvAppend, insertKV_fresh tl h.2]
termination_by structural acc

theorem pyDictOf_rebuild (l : JsonKVs) : ∀ acc : JsonKVs, kwf l = true →
    (∀ key, kvHasKey acc key = true → kvHasKey l key = false) →
    pyDictOf (kvsToList l) acc = kvAppend acc l := by
  cases l with
  | nil =>
    intro acc _ _
    rw [kvsToList, pyDictOf, kvAppend_nil_right]
  | cons k v tl =>
    intro acc hwf hfresh
    rw [kwf, Bool.and_eq_true, Bool.and_eq_true] at hwf
    have hacc : kvHasKey acc k = false := by
      cases hc : kvHasKey acc k
      · rfl
      · have h2 := hfresh k hc
        rw [kvHasKey] at h2
        simp at h2
    have hfresh2 : ∀ key, kvHasKey (kvAppend acc (.cons k v .nil)) key = true →
        kvHasKey tl key = false := by
      intro key hkey
      rw [kvHasKey_kvAppend, Bool.or_eq_true] at hkey
      rcases hkey with hkey | hkey
      · have h3 := hfresh key hkey
        rw [kvHasKey, Bool.or_eq_false_iff] at h3
        exact h3.2
      · rw [kvHasKey, kvHasKey, Bool.or_false, decide_eq_true_eq] at hkey
        subst hkey
        have h4 := hwf.1.1
        revert h4
        cases kvHasKey tl k <;> simp
    have hstep := pyDictOf_rebuild tl (kvAppend acc (.cons k v .nil)) hwf.2 hfresh2
    rw [kvsToList, pyDictOf, insertKV_fresh acc hacc, hstep, kvAppend_assoc]
    rfl
termination_by structural l

theorem pyDictOf_id {l : JsonKVs} (h : kwf l = true) :
    pyDictOf (kvsToList l) .nil = l :=
  pyDictOf_rebuild l .nil h (fun key hkey => by
    rw [kvHasKey] at hkey
    exact Bool.noConfusion hkey)

/-! Heads of printed values, and sizes versus printed lengths. -/

theorem skipWs_space {r : List Char} : skipWs (' ' :: r) = skipWs r := by
  simp [skipWs, List.dropWhile_cons, isWs]

theorem intChars_head (n : Int) :
    ∃ c cs, intChars n = c :: cs ∧ (45 = c.toNat ∨ (48 ≤ c.toNat ∧ c.toNat ≤ 57)) := by
  rw [intChars]
  by_cases hn : n < 0
  · rw [if_pos hn]
    exact ⟨'-', natChars (-n).toNat, rfl, Or.inl (by decide)⟩
  · rw [if_neg hn]
    obtain ⟨c, cs, hh, h1, h2⟩ := natChars_head n.toNat
    exact ⟨c, cs, hh, Or.inr ⟨h1, h2⟩⟩

theorem dumps_head (v : Json) :
    ∃ c cs, dumps v = c :: cs ∧ 34 ≤ c.toNat ∧ c.toNat ≠ 93 := by
  cases v with
  | null => exact ⟨'n', _, rfl, by decide, by decide⟩
  | bool b =>
    cases b with
    | false => exact ⟨'f', _, rfl, by decide, by decide⟩
    | true => exact ⟨'t', _, rfl, by decide, by decide⟩
  | num n =>
    obtain ⟨c, cs, hh, hc⟩ := intChars_head n
    refine ⟨c, cs, by rw [dumps, hh], ?_, ?_⟩ <;> omega
  | str s => exact ⟨'"', _, rfl, by decide, by decide⟩
  | arr xs =>
    cases xs with
    | nil => exact ⟨'[', _, rfl, by decide, by decide⟩
    | cons hd tl => exact ⟨'[', _, rfl, by decide, by decide⟩
  | obj kvs =>
    cases kvs with
    | nil => exact ⟨'{', _, rfl, by decide, by decide⟩
    | cons k v tl => exact ⟨'{', _, rfl, by decide, by decide⟩

theorem numSafe_dumpsElems_append {tl : JsonList} {rest : List Char} :
    numSafe (dumpsElems tl ++ (']' :: rest)) = true := by
  cases tl with
  | nil => exact numSafe_rbracket
  | cons v vs =>
    rw [dumpsElems]
    exact numSafe_comma

theorem numSafe_dumpsKVs_append {tl : JsonKVs} {rest : List Char} :
    numSafe (dumpsKVs tl ++ ('}' :: rest)) = true := by
  cases tl with
  | nil => exact numSafe_rbrace
  | cons k v kvs =>
    rw [dumpsKVs]
    exact numSafe_comma

mutual

theorem jsize_le_dumps (v : Json) : jsize v ≤ (dumps v).length := by
  cases v with
  | null => decide
  | bool b => cases b <;> decide
  | num n =>
    obtain ⟨c, cs, hh, _⟩ := intChars_head n
    rw [jsize, dumps, hh]
    simp
  | str s =>
    rw [jsize, dumps]
    simp
  | arr xs =>
    cases xs with
    | nil => decide
    | cons hd tl =>
      have h1 := jsize_le_dumps hd
      have h2 := lsize_le_dumpsElems tl
      rw [jsize, lsize, dumps]
      simp only [List.length_cons, List.length_append, List.length_singleton]
      omega
  | obj kvs =>
    cases kvs with
    | nil => decide
    | cons k v tl =>
      have h1 := jsize_le_dumps v
      have h2 := ksize_le_dumpsKVs tl
      rw [jsize, ksize, dumps]
      simp only [List.length_cons, List.length_append, List.length_singleton]
      omega
termination_by structural v

theorem lsize_le_dumpsElems (l : JsonList) : lsize l ≤ (dumpsElems l).length := by
  cases l with
  | nil => decide
  | cons v vs =>
    have h1 := jsize_le_dumps v
    have h2 := lsize_le_dumpsElems vs
    rw [lsize, dumpsElems]
    simp only [List.length_cons, List.length_append]
    omega
termination_by structural l

theorem ksize_le_dumpsKVs (l : JsonKVs) : ksize l ≤ (dumpsKVs l).length := by
  cases l with
  | nil => decide
  | cons k v tl =>
    have h1 := jsize_le_dumps v
    have h2 := ksize_le_dumpsKVs tl
    rw [ksize, dumpsKVs]
    simp only [List.length_cons, List.length_append]
    omega
termination_by structural l

end

/-! The main parsing round trip. -/

mutual

theorem parseValue_dumps (v : Json) : ∀ (f : Nat) (rest : List Char),
    jsize v < f → jwf v = true → numSafe rest = true →
    parseValue f (dumps v ++ rest) = some (v, rest) := by
  cases v with
  | null =>
    intro f rest hf _ _
    cases f with
    | zero => omega
    | succ f =>
      rw [(show dumps Json.null = [ 'n', 'u', 'l', 'l' ] by decide)]
      simp only [List.cons_append, List.nil_append]
      exact parseValue_null
  | bool b =>
    intro f rest hf _ _
    cases f with
    | zero => omega
    | succ f =>
      cases b
      · rw [(show dumps (Json.bool false) = [ 'f', 'a', 'l', 's', 'e' ] by decide)]
        simp only [List.cons_append, List.nil_append]
        exact parseValue_false
      · rw [(show dumps (Json.bool true) = [ 't', 'r', 'u', 'e' ] by decide)]
        simp only [List.cons_append, List.nil_append]
        exact parseValue_true
  | num n =>
    intro f rest hf _ hns
    cases f with
    | zero => omega
    | succ f =>
      obtain ⟨c, cs, hh, hc⟩ := intChars_head n
      rw [dumps, hh, List.cons_append, parseValue_number hc, ← List.cons_append, ← hh,
        parseNumber_intChars hns]
      rfl
  | str s =>
    intro f rest hf _ _
    cases f with
    | zero => omega
    | succ f =>
      rw [dumps]
      simp only [List.cons_append, List.append_assoc, List.singleton_append]
      rw [parseValue_quote, parseString_escString]
      rfl
  | arr xs =>
    cases xs with
    | nil =>
      intro f rest hf _ _
      cases f with
      | zero => omega
      | succ f =>
        rw [(show dumps (Json.arr .nil) = [ '[', ']' ] from rfl)]
        simp only [List.cons_append, List.nil_append]
        exact parseValue_brackets
    | cons hd tl =>
      intro f rest hf hwf hns
      cases f with
      | zero =>
        rw [jsize] at hf
        omega
      | succ f =>
        rw [dumps]
        simp only [List.cons_append, List.append_assoc, List.singleton_append,
          List.nil_append]
        obtain ⟨c, cs, hh, h34, h93⟩ := dumps_head hd
        rw [hh, List.cons_append]
        rw [parseValue_arr_items (isWs_false_ge34 h34)
          (ne_of_toNat_ne (by rw [(show (']' : Char).toNat = 93 by decide)]; omega))]
        rw [← List.cons_append, ← hh]
        rw [parseElems_dumps (.cons hd tl) f rest hd tl rfl
          (by rw [jsize] at hf; omega) (by rw [jwf] at hwf; exact hwf)]
        rfl
  | obj kvs =>
    cases kvs with
    | nil =>
      intro f rest hf _ _
      cases f with
      | zero => omega
      | succ f =>
        rw [(show dumps (Json.obj .nil) = [ '{', '}' ] from rfl)]
        simp only [List.cons_append, List.nil_append]
        exact parseValue_braces
    | cons k v tl =>
      intro f rest hf hwf hns
      cases f with
      | zero =>
        rw [jsize] at hf
        omega
      | succ f =>
        rw [dumps]
        simp only [List.cons_append, List.append_assoc, List.singleton_append,
          List.nil_append]
        rw [parseValue_obj_members]
        rw [parseMembers_dumps (.cons k v tl) f rest k v tl rfl
          (by rw [jsize] at hf; omega) (by rw [jwf] at hwf; exact hwf)]
        show some (Json.obj (pyDictOf (kvsToList (JsonKVs.cons k v tl)) JsonKVs.nil), rest) =
          some (Json.obj (JsonKVs.cons k v tl), rest)
        rw [pyDictOf_id (by rw [jwf] at hwf; exact hwf)]
termination_by structural v

theorem parseElems_dumps (l : JsonList) : ∀ (f : Nat) (rest : List Char)
    (hd : Json) (tl : JsonList), l = .cons hd tl →
    lsize l < f → lwf l = true →
    parseElems f (dumps hd ++ (dumpsElems tl ++ (']' :: rest))) = some (l, rest) := by
  cases l with
  | nil =>
    intro f rest hd tl heq
    exact absurd heq (by intro h; cases h)
  | cons hd0 tl0 =>
    intro f rest hdq tlq heq hsz hwf
    injection heq with h1 h2
    subst h1
    subst h2
    cases f with
    | zero =>
      rw [lsize] at hsz
      omega
    | succ f =>
      rw [lsize] at hsz
      rw [lwf, Bool.and_eq_true] at hwf
      have hval := parseValue_dumps hd0 f (dumpsElems tl0 ++ (']' :: rest))
        (by omega) hwf.1 numSafe_dumpsElems_append
      rw [parseElems_step hval]
      cases tl0 with
      | nil =>
        rw [dumpsElems, List.nil_append, skipWs_cons (by decide)]
        rw [if_neg (by simp), if_pos (by simp)]
        rfl
      | cons hd2 tl2 =>
        rw [dumpsElems]
        simp only [List.cons_append]
        rw [skipWs_cons (by decide)]
        rw [if_pos (by simp)]
        rw [List.tail_cons, skipWs_space]
        obtain ⟨c, cs, hh, h34, _⟩ := dumps_head hd2
        rw [List.append_assoc, hh, List.cons_append, skipWs_cons (isWs_false_ge34 h34),
          ← List.cons_append, ← hh]
        rw [parseElems_dumps (.cons hd2 tl2) f rest hd2 tl2 rfl (by omega) hwf.2]
        rfl
termination_by structural l

theorem parseMembers_dumps (l : JsonKVs) : ∀ (f : Nat) (rest : List Char)
    (k : List Char) (v : Json) (tl : JsonKVs), l = .cons k v tl →
    ksize l < f → kwf l = true →
    parseMembers f ('"' :: (escString k ++
      ('"' :: ':' :: ' ' :: (dumps v ++ (dumpsKVs tl ++ ('}' :: rest)))))) =
      some (kvsToList l, rest) := by
  cases l with
  | nil =>
    intro f rest k v tl heq
    exact absurd heq (by intro h; cases h)
  | cons k0 v0 tl0 =>
    intro f rest kq vq tlq heq hsz hwf
    injection heq with h1 h2 h3
    subst h1
    subst h2
    subst h3
    cases f with
    | zero =>
      rw [ksize] at hsz
      omega
    | succ f =>
      rw [ksize] at hsz
      rw [kwf, Bool.and_eq_true, Bool.and_eq_true] at hwf
      have hstr : parseString ('"' :: (escString k0 ++
          ('"' :: ':' :: ' ' :: (dumps v0 ++ (dumpsKVs tl0 ++ ('}' :: rest)))))).tail =
          some (k0, ':' :: ' ' :: (dumps v0 ++ (dumpsKVs tl0 ++ ('}' :: rest)))) := by
        rw [List.tail_cons]
        exact parseString_escString
      rw [parseMembers_step List.head?_cons hstr]
      rw [skipWs_cons (by decide), if_pos (by simp)]
      rw [List.tail_cons, skipWs_space]
      obtain ⟨c, cs, hh, h34, _⟩ := dumps_head v0
      rw [hh, List.cons_append, skipWs_cons (isWs_false_ge34 h34), ← List.cons_append, ← hh]
      have hval := parseValue_dumps v0 f (dumpsKVs tl0 ++ ('}' :: rest))
        (by omega) hwf.1.2 numSafe_dumpsKVs_append
      rw [hval]
      dsimp only
      cases tl0 with
      | nil =>
        rw [dumpsKVs, List.nil_append, skipWs_cons (by decide)]
        rw [if_neg (by simp), if_pos (by simp)]
        rfl
      | cons k2 v2 tl2 =>
        rw [dumpsKVs]
        simp only [List.cons_append]
        rw [skipWs_cons (by decide)]
        rw [if_pos (by simp)]
        rw [List.tail_cons, skipWs_space, skipWs_cons (by decide)]
        rw [(show escString k2 ++ '"' :: ':' :: ' ' :: (dumps v2 ++ dumpsKVs tl2) ++
            ('}' :: rest) =
          escString k2 ++ ('"' :: ':' :: ' ' :: (dumps v2 ++ (dumpsKVs tl2 ++ ('}' :: rest))))
          by simp)]
        rw [parseMembers_dumps (.cons k2 v2 tl2) f rest k2 v2 tl2 rfl
          (by omega) hwf.2]
        rfl
termination_by structural l

end

/-- `json.loads` of `json.dumps` recovers any dict-shaped value. -/
theorem loads_dumps {v : Json} (h : jwf v = true) : loads (dumps v) = some v := by
  rw [loads]
  have hval := parseValue_dumps v ((dumps v).length + 1) []
    (Nat.lt_succ_of_le (jsize_le_dumps v)) h rfl
  rw [List.append_nil] at hval
  rw [hval]
  rfl

/-! Host-level composition: frame round trip, loop stepping. -/

theorem send_message_bytes_small {m : Json}
    (h : (utf8Encode (dumps m)).length < 4294967296) :
    send_message_bytes m = le32Enc (utf8Encode (dumps m)).length ++ utf8Encode (dumps m) := by
  simp only [send_message_bytes]
  rw [if_pos h]

theorem decodePayload_dumps {m : Json} (hwf : jwf m = true) :
    decodePayload (utf8Encode (dumps m)) = some m := by
  rw [decodePayload, utf8Decode_encode_ascii (dumps_ascii m)]
  exact loads_dumps hwf

theorem read_send_message {m : Json} (hwf : jwf m = true) (hn : ¬(m = Json.null))
    (hsize : (utf8Encode (dumps m)).length < 4294967296) (rest : List Nat) :
    read_message (send_message_bytes m ++ rest) = (some m, rest) := by
  rw [send_message_bytes_small hsize, List.append_assoc, read_message_frame hsize,
    decodePayload_dumps hwf]
  show ((if m = Json.null then none else some m : Option Json), rest) = (some m, rest)
  rw [if_neg hn]

theorem read_message_consumed {s s2 : List Nat} {m : Json}
    (h : read_message s = (some m, s2)) : s2.length < s.length := by
  rcases s with _ | ⟨b0, _ | ⟨b1, _ | ⟨b2, _ | ⟨b3, rest⟩⟩⟩⟩
  · simp [read_message] at h
  · simp [read_message] at h
  · simp [read_message] at h
  · simp [read_message] at h
  · simp only [read_message] at h
    cases hdp : decodePayload (rest.take (le32Dec b0 b1 b2 b3)) with
    | none => simp only [hdp] at h; simp at h
    | some v =>
      simp only [hdp] at h
      by_cases hv : v = Json.null
      · rw [if_pos hv] at h; simp at h
      · rw [if_neg hv] at h
        injection h with h1 h2
        subst h2
        rw [List.length_drop]
        simp only [List.length_cons]
        omega

theorem loopStep_consumed {avail : Bool} {st : HostState} {s : List Nat}
    {resp : Json} {st2 : HostState} {s2 : List Nat}
    (h : loopStep avail st s = .next resp st2 s2) : s2.length < s.length := by
  rw [loopStep] at h
  cases hrm : read_message s with
  | mk o srest =>
    rw [hrm] at h
    cases o with
    | none => simp at h
    | some m =>
      dsimp only at h
      cases hh : handle_message avail st m with
      | error e => rw [hh] at h; simp at h
      | ok p =>
        obtain ⟨r, st3⟩ := p
        rw [hh] at h
        injection h with h1 h2 h3
        subst h3
        exact read_message_consumed hrm

theorem runLoop_fuel {avail : Bool} :
    ∀ (f1 f2 : Nat) (st : HostState) (s : List Nat), s.length < f1 → s.length < f2 →
      runLoop avail f1 st s = runLoop avail f2 st s := by
  intro f1
  induction f1 with
  | zero => intro f2 st s h1 h2; omega
  | succ g ih =>
    intro f2 st s h1 h2
    cases f2 with
    | zero => omega
    | succ g2 =>
      rw [runLoop, runLoop]
      cases hstep : loopStep avail st s with
      | stop r => rfl
      | next resp st2 s2 =>
        have hc := loopStep_consumed hstep
        dsimp only
        rw [ih g2 st2 s2 (by omega) (by omega)]

theorem runLoop_next_eq {avail : Bool} {f : Nat} {st : HostState} {s : List Nat}
    {resp : Json} {st2 : HostState} {s2 : List Nat}
    (h : loopStep avail st s = .next resp st2 s2) :
    runLoop avail (f + 1) st s =
      (send_message_bytes resp ++ (runLoop avail f st2 s2).1, (runLoop avail f st2 s2).2) := by
  rw [runLoop, h]

theorem runLoop_stop_eq {avail : Bool} {f : Nat} {st : HostState} {s : List Nat} {r : StopReason}
    (h : loopStep avail st s = .stop r) :
    runLoop avail (f + 1) st s = ([], r) := by
  rw [runLoop, h]

theorem run_next {avail : Bool} {st : HostState} {s : List Nat}
    {resp : Json} {st2 : HostState} {s2 : List Nat}
    (h : loopStep avail st s = .next resp st2 s2) :
    run avail st s = (send_message_bytes resp ++ (run avail st2 s2).1, (run avail st2 s2).2) := by
  have hc := loopStep_consumed h
  simp only [run]
  rw [runLoop_next_eq h]
  rw [runLoop_fuel s.length (s2.length + 1) st2 s2 (by omega) (by omega)]

theorem run_stop {avail : Bool} {st : HostState} {s : List Nat} {r : StopReason}
    (h : loopStep avail st s = .stop r) : run avail st s = ([], r) := by
  rw [run, runLoop_stop_eq h]

/-! Unfolding lemmas for the router and the envelope builder. -/

theorem handle_message_ok_eq {avail : Bool} {st : HostState} {kvs : JsonKVs}
    {result : Json} {st2 : HostState}
    (h : routeAction avail st ((kvLookup kvs (s2l ("action"))).getD .null)
        ((kvLookup kvs (s2l ("data"))).getD (.obj .nil)) = .ok (result, st2)) :
    handle_message avail st (.obj kvs) =
      .ok (successResponse ((kvLookup kvs (s2l ("id"))).getD .null)
        ((kvLookup kvs (s2l ("action"))).getD .null) result, st2) := by
  simp only [handle_message]
  rw [h]

theorem handle_message_error_eq {avail : Bool} {st : HostState} {kvs : JsonKVs} {e : List Char}
    (h : routeAction avail st ((kvLookup kvs (s2l ("action"))).getD .null)
        ((kvLookup kvs (s2l ("data"))).getD (.obj .nil)) = .error e) :
    handle_message avail st (.obj kvs) =
      .ok (errorResponse ((kvLookup kvs (s2l ("id"))).getD .null)
        ((kvLookup kvs (s2l ("action"))).getD .null) e, st) := by
  simp only [handle_message]
  rw [h]

theorem handle_message_backend_ok_eq {avail : Bool}
    {backend : List Char → Except (List Char) JsonList} {st : HostState} {kvs : JsonKVs}
    {result : Json} {st2 : HostState}
    (h : routeAction_backend avail backend st ((kvLookup kvs (s2l ("action"))).getD .null)
        ((kvLookup kvs (s2l ("data"))).getD (.obj .nil)) = .ok (result, st2)) :
    handle_message_backend avail backend st (.obj kvs) =
      .ok (successResponse ((kvLookup kvs (s2l ("id"))).getD .null)
        ((kvLookup kvs (s2l ("action"))).getD .null) result, st2) := by
  simp only [handle_message_backend]
  rw [h]

theorem handle_message_backend_error_eq {avail : Bool}
    {backend : List Char → Except (List Char) JsonList} {st : HostState} {kvs : JsonKVs}
    {e : List Char}
    (h : routeAction_backend avail backend st ((kvLookup kvs (s2l ("action"))).getD .null)
        ((kvLookup kvs (s2l ("data"))).getD (.obj .nil)) = .error e) :
    handle_message_backend avail backend st (.obj kvs) =
      .ok (errorResponse ((kvLookup kvs (s2l ("id"))).getD .null)
        ((kvLookup kvs (s2l ("action"))).getD .null) e, st) := by
  simp only [handle_message_backend]
  rw [h]

theorem routeAction_test_connection {avail : Bool} {st : HostState} {data : Json} :
    routeAction avail st (.str (s2l ("test-connection"))) data =
      handle_test_connection avail st data := by
  rw [routeAction, if_pos rfl]

theorem routeAction_get_credentials {avail : Bool} {st : HostState} {data : Json} :
    routeAction avail st (.str (s2l ("get-credentials"))) data =
      handle_get_credentials avail st data := by
  rw [routeAction, if_neg (by decide), if_pos rfl]

theorem routeAction_get_status {avail : Bool} {st : HostState} {data : Json} :
    routeAction avail st (.str (s2l ("get-status"))) data =
      handle_get_status avail st data := by
  rw [routeAction, if_neg (by decide), if_neg (by decide), if_pos rfl]

theorem routeAction_unknown {avail : Bool} {st : HostState} {action data : Json}
    (h1 : ¬(action = .str (s2l ("test-connection"))))
    (h2 : ¬(action = .str (s2l ("get-credentials"))))
    (h3 : ¬(action = .str (s2l ("get-status")))) :
    routeAction avail st action data = .error (s2l ("Unknown action: ") ++ pyStr action) := by
  rw [routeAction, if_neg h1, if_neg h2, if_neg h3]

theorem routeAction_backend_get_credentials {avail : Bool}
    {backend : List Char → Except (List Char) JsonList} {st : HostState} {data : Json} :
    routeAction_backend avail backend st (.str (s2l ("get-credentials"))) data =
      handle_get_credentials_backend avail backend st data := by
  rw [routeAction_backend, if_neg (by decide), if_pos rfl]

/-! Handler-level lemmas. -/

theorem handle_get_credentials_unavailable {st : HostState} {data : Json} :
    handle_get_credentials false st data = .error (s2l ("PyKeePass not available")) := rfl

theorem handle_get_credentials_falsy {st : HostState} {dkvs : JsonKVs}
    (h : pyTruthy ((kvLookup dkvs (s2l ("domain"))).getD (.str [])) = false) :
    handle_get_credentials true st (.obj dkvs) = .error (s2l ("Domain not provided")) := by
  rw [handle_get_credentials, if_neg (by decide), pyGet]
  show (if !pyTruthy ((kvLookup dkvs (s2l ("domain"))).getD (.str [])) then _ else _) = _
  simp [h]

theorem handle_get_credentials_truthy {st : HostState} {dkvs : JsonKVs}
    (h : pyTruthy ((kvLookup dkvs (s2l ("domain"))).getD (.str [])) = true) :
    handle_get_credentials true st (.obj dkvs) =
      .ok (.obj (.cons (s2l ("credentials")) (.arr .nil) .nil), st) := by
  rw [handle_get_credentials, if_neg (by decide), pyGet]
  show (if !pyTruthy ((kvLookup dkvs (s2l ("domain"))).getD (.str [])) then _ else _) = _
  simp [h]

theorem handle_get_credentials_backend_unavailable
    {backend : List Char → Except (List Char) JsonList} {st : HostState} {data : Json} :
    handle_get_credentials_backend false backend st data =
      .error (s2l ("PyKeePass not available")) := rfl

theorem handle_get_credentials_backend_falsy
    {backend : List Char → Except (List Char) JsonList} {st : HostState} {dkvs : JsonKVs}
    (h : pyTruthy ((kvLookup dkvs (s2l ("domain"))).getD (.str [])) = false) :
    handle_get_credentials_backend true backend st (.obj dkvs) =
      .error (s2l ("Domain not provided")) := by
  rw [handle_get_credentials_backend, if_neg (by decide), pyGet]
  show (if !pyTruthy ((kvLookup dkvs (s2l ("domain"))).getD (.str [])) then _ else _) = _
  simp [h]

theorem handle_get_credentials_backend_fault
    {backend : List Char → Except (List Char) JsonList} {st : HostState} {dkvs : JsonKVs}
    {d t : List Char}
    (hst : st.kp_some = true)
    (hd : (kvLookup dkvs (s2l ("domain"))).getD (.str []) = .str d)
    (hne : pyTruthy (.str d) = true)
    (hb : backend d = .error t) :
    handle_get_credentials_backend true backend st (.obj dkvs) = .error t := by
  rw [handle_get_credentials_backend, if_neg (by decide), pyGet]
  show (if !pyTruthy ((kvLookup dkvs (s2l ("domain"))).getD (.str [])) then _ else _) = _
  rw [hd]
  simp [hne, hst, pyStr, hb]

theorem handle_get_credentials_state {avail : Bool} {st : HostState} {data result : Json}
    {st2 : HostState}
    (h : handle_get_credentials avail st data = .ok (result, st2)) : st2 = st := by
  cases avail with
  | false => rw [handle_get_credentials_unavailable] at h; simp at h
  | true =>
    rw [handle_get_credentials, if_neg (by decide)] at h
    cases hpg : pyGet data (s2l ("domain")) (.str []) with
    | error e => rw [hpg] at h; simp at h
    | ok domain =>
      rw [hpg] at h
      dsimp only at h
      by_cases hd : pyTruthy domain = true
      · rw [show ((!pyTruthy domain : Bool)) = false by simp [hd]] at h
        simp at h
        exact h.2.symm
      · rw [show ((!pyTruthy domain : Bool)) = true by simp [Bool.not_eq_true] at hd; simp [hd]] at h
        simp at h

theorem routeAction_state {avail : Bool} {st : HostState} {action data result : Json}
    {st2 : HostState}
    (h : routeAction avail st action data = .ok (result, st2)) : st2 = st := by
  rw [routeAction] at h
  by_cases h1 : action = .str (s2l ("test-connection"))
  · rw [if_pos h1, handle_test_connection] at h
    injection h with h2
    injection h2 with h3 h4
    exact h4.symm
  · rw [if_neg h1] at h
    by_cases h2 : action = .str (s2l ("get-credentials"))
    · rw [if_pos h2] at h
      exact handle_get_credentials_state h
    · rw [if_neg h2] at h
      by_cases h3 : action = .str (s2l ("get-status"))
      · rw [if_pos h3, handle_get_status] at h
        injection h with h4
        injection h4 with h5 h6
        exact h6.symm
      · rw [if_neg h3] at h
        simp at h

/-! Claim theorems. -/

/-- C6: dispatching a request whose action string names no registered
handler (`test-connection`, `get-credentials`, `get-status`) produces a
`success: false` response whose error message names the unknown action
(`Unknown action: <name>`), and the session loop remains running: the
iteration emits exactly that response, keeps the state, and `run`
continues on the rest of the stream. -/
theorem C6_unknown_action (avail : Bool) (st : HostState) (kvs : JsonKVs)
    (a : List Char) (rest : List Nat)
    (ha : kvLookup kvs (s2l ("action")) = some (.str a))
    (h1 : ¬(a = s2l ("test-connection")))
    (h2 : ¬(a = s2l ("get-credentials")))
    (h3 : ¬(a = s2l ("get-status")))
    (hwf : jwf (.obj kvs) = true)
    (hsize : (utf8Encode (dumps (.obj kvs))).length < 4294967296) :
    loopStep avail st (send_message_bytes (.obj kvs) ++ rest) =
      .next (errorResponse ((kvLookup kvs (s2l ("id"))).getD .null) (.str a)
        (s2l ("Unknown action: ") ++ a)) st rest ∧
    run avail st (send_message_bytes (.obj kvs) ++ rest) =
      (send_message_bytes (errorResponse ((kvLookup kvs (s2l ("id"))).getD .null) (.str a)
          (s2l ("Unknown action: ") ++ a)) ++ (run avail st rest).1,
        (run avail st rest).2) := by
  have n1 : ¬((Json.str a) = .str (s2l ("test-connection"))) := by
    intro hc; injection hc with hc2; exact h1 hc2
  have n2 : ¬((Json.str a) = .str (s2l ("get-credentials"))) := by
    intro hc; injection hc with hc2; exact h2 hc2
  have n3 : ¬((Json.str a) = .str (s2l ("get-status"))) := by
    intro hc; injection hc with hc2; exact h3 hc2
  have hroute : routeAction avail st ((kvLookup kvs (s2l ("action"))).getD .null)
      ((kvLookup kvs (s2l ("data"))).getD (.obj .nil)) =
      .error (s2l ("Unknown action: ") ++ a) := by
    rw [ha]
    show routeAction avail st (.str a) _ = _
    rw [routeAction_unknown n1 n2 n3]
    rfl
  have hm : handle_message avail st (.obj kvs) =
      .ok (errorResponse ((kvLookup kvs (s2l ("id"))).getD .null) (.str a)
        (s2l ("Unknown action: ") ++ a), st) := by
    rw [handle_message_error_eq hroute, ha]
    rfl
  have hstep : loopStep avail st (send_message_bytes (.obj kvs) ++ rest) =
      .next (errorResponse ((kvLookup kvs (s2l ("id"))).getD .null) (.str a)
        (s2l ("Unknown action: ") ++ a)) st rest := by
    rw [loopStep, read_send_message hwf (fun hc => Json.noConfusion hc) hsize]
    dsimp only
    rw [hm]
  exact ⟨hstep, run_next hstep⟩

/-- Witness for C6 at a concrete request: `{id: "1", action: "does-not-exist"}`. -/
theorem C6_unknown_action_witness :
    loopStep true initState (send_message_bytes (.obj (.cons (s2l ("id")) (.str (s2l ("1")))
        (.cons (s2l ("action")) (.str (s2l ("does-not-exist"))) .nil))) ++ []) =
      .next (errorResponse (.str (s2l ("1"))) (.str (s2l ("does-not-exist")))
        (s2l ("Unknown action: ") ++ s2l ("does-not-exist"))) initState [] ∧
    run true initState (send_message_bytes (.obj (.cons (s2l ("id")) (.str (s2l ("1")))
        (.cons (s2l ("action")) (.str (s2l ("does-not-exist"))) .nil))) ++ []) =
      (send_message_bytes (errorResponse (.str (s2l ("1"))) (.str (s2l ("does-not-exist")))
          (s2l ("Unknown action: ") ++ s2l ("does-not-exist"))) ++
        (run true initState []).1, (run true initState []).2) :=
  C6_unknown_action true initState
    (.cons (s2l ("id")) (.str (s2l ("1")))
      (.cons (s2l ("action")) (.str (s2l ("does-not-exist"))) .nil))
    (s2l ("does-not-exist")) [] (by decide) (by decide) (by decide) (by decide)
    (by decide) (by decide)

/-- C7: the response built by `handle_message` carries the request envelope
fields back verbatim: on any dict request, the response object holds under
`id` exactly the request value `message.get('id')` and under `action`
exactly `message.get('action')`, in the success branch and in the error
branch alike. -/
theorem C7_id_action_preserved (avail : Bool) (st : HostState) (kvs : JsonKVs)
    (resp : Json) (st2 : HostState)
    (h : handle_message avail st (.obj kvs) = .ok (resp, st2)) :
    ∃ rkvs, resp = .obj rkvs ∧
      kvLookup rkvs (s2l ("id")) = some ((kvLookup kvs (s2l ("id"))).getD .null) ∧
      kvLookup rkvs (s2l ("action")) = some ((kvLookup kvs (s2l ("action"))).getD .null) := by
  simp only [handle_message] at h
  cases hr : routeAction avail st ((kvLookup kvs (s2l ("action"))).getD .null)
      ((kvLookup kvs (s2l ("data"))).getD (.obj .nil)) with
  | error e =>
    rw [hr] at h
    injection h with h2
    injection h2 with h3 h4
    subst h3
    exact ⟨_, rfl, rfl, rfl⟩
  | ok p =>
    obtain ⟨result, st3⟩ := p
    rw [hr] at h
    injection h with h2
    injection h2 with h3 h4
    subst h3
    exact ⟨_, rfl, rfl, rfl⟩

/-- Witness for C7 at a concrete request: `{id: "abc123", action:
"test-connection"}` dispatched with pykeepass available. -/
theorem C7_id_action_preserved_witness :
    ∃ rkvs, successResponse (.str (s2l ("abc123"))) (.str (s2l ("test-connection")))
        (.obj (.cons (s2l ("connected")) (.bool true)
          (.cons (s2l ("message")) (.str (s2l ("Connection test successful"))) .nil))) =
        .obj rkvs ∧
      kvLookup rkvs (s2l ("id")) = some (.str (s2l ("abc123"))) ∧
      kvLookup rkvs (s2l ("action")) = some (.str (s2l ("test-connection"))) :=
  C7_id_action_preserved true initState
    (.cons (s2l ("id")) (.str (s2l ("abc123")))
      (.cons (s2l ("action")) (.str (s2l ("test-connection"))) .nil))
    (successResponse (.str (s2l ("abc123"))) (.str (s2l ("test-connection")))
      (.obj (.cons (s2l ("connected")) (.bool true)
        (.cons (s2l ("message")) (.str (s2l ("Connection test successful"))) .nil))))
    initState (by rfl)

/-- C8: every response envelope `handle_message` returns contains exactly
one of `data` and `error`, determined by `success`: a `success: true`
response carries `data` and no `error` key, a `success: false` response
carries `error` and no `data` key. -/
theorem C8_exactly_one_of_data_error (avail : Bool) (st : HostState) (m resp : Json)
    (st2 : HostState) (h : handle_message avail st m = .ok (resp, st2)) :
    ∃ rkvs, resp = .obj rkvs ∧
      ((kvLookup rkvs (s2l ("success")) = some (.bool true) ∧
        kvHasKey rkvs (s2l ("data")) = true ∧ kvHasKey rkvs (s2l ("error")) = false) ∨
       (kvLookup rkvs (s2l ("success")) = some (.bool false) ∧
        kvHasKey rkvs (s2l ("data")) = false ∧ kvHasKey rkvs (s2l ("error")) = true)) := by
  cases m with
  | null => simp only [handle_message] at h; exact Except.noConfusion h
  | bool b => simp only [handle_message] at h; exact Except.noConfusion h
  | num n => simp only [handle_message] at h; exact Except.noConfusion h
  | str s => simp only [handle_message] at h; exact Except.noConfusion h
  | arr l => simp only [handle_message] at h; exact Except.noConfusion h
  | obj kvs =>
    simp only [handle_message] at h
    cases hr : routeAction avail st ((kvLookup kvs (s2l ("action"))).getD .null)
        ((kvLookup kvs (s2l ("data"))).getD (.obj .nil)) with
    | error e =>
      rw [hr] at h
      injection h with h2
      injection h2 with h3 h4
      subst h3
      exact ⟨_, rfl, .inr ⟨rfl, rfl, rfl⟩⟩
    | ok p =>
      obtain ⟨result, st3⟩ := p
      rw [hr] at h
      injection h with h2
      injection h2 with h3 h4
      subst h3
      exact ⟨_, rfl, .inl ⟨rfl, rfl, rfl⟩⟩

/-- Witness for C8 at a concrete request: `get-credentials` with pykeepass
unavailable produces the error-branch envelope. -/
theorem C8_exactly_one_of_data_error_witness :
    ∃ rkvs, errorResponse (.str (s2l ("7"))) (.str (s2l ("get-credentials")))
        (s2l ("PyKeePass not available")) = .obj rkvs ∧
      ((kvLookup rkvs (s2l ("success")) = some (.bool true) ∧
        kvHasKey rkvs (s2l ("data")) = true ∧ kvHasKey rkvs (s2l ("error")) = false) ∨
       (kvLookup rkvs (s2l ("success")) = some (.bool false) ∧
        kvHasKey rkvs (s2l ("data")) = false ∧ kvHasKey rkvs (s2l ("error")) = true)) :=
  C8_exactly_one_of_data_error false initState
    (.obj (.cons (s2l ("id")) (.str (s2l ("7")))
      (.cons (s2l ("action")) (.str (s2l ("get-credentials"))) .nil)))
    (errorResponse (.str (s2l ("7"))) (.str (s2l ("get-credentials")))
      (s2l ("PyKeePass not available")))
    initState (by rfl)

/-- C9: dispatch leaves the session state unchanged — whenever
`handle_message` returns a response, the returned `HostState` (modelling
`self.kp`, `self.database_path`, `self.is_connected`) equals the input
state: no registered handler mutates it. -/
theorem C9_state_unchanged (avail : Bool) (st : HostState) (m resp : Json)
    (st2 : HostState) (h : handle_message avail st m = .ok (resp, st2)) : st2 = st := by
  cases m with
  | null => simp only [handle_message] at h; exact Except.noConfusion h
  | bool b => simp only [handle_message] at h; exact Except.noConfusion h
  | num n => simp only [handle_message] at h; exact Except.noConfusion h
  | str s => simp only [handle_message] at h; exact Except.noConfusion h
  | arr l => simp only [handle_message] at h; exact Except.noConfusion h
  | obj kvs =>
    simp only [handle_message] at h
    cases hr : routeAction avail st ((kvLookup kvs (s2l ("action"))).getD .null)
        ((kvLookup kvs (s2l ("data"))).getD (.obj .nil)) with
    | error e =>
      rw [hr] at h
      injection h with h2
      injection h2 with h3 h4
      exact h4.symm
    | ok p =>
      obtain ⟨result, st3⟩ := p
      rw [hr] at h
      injection h with h2
      injection h2 with h3 h4
      exact h4 ▸ routeAction_state hr

/-- Witness for C9 at a concrete request: `get-status` dispatched against a
state with an open database handle. -/
theorem C9_state_unchanged_witness : (⟨true, some (s2l ("a/b.kdbx")), true⟩ : HostState) =
    ⟨true, some (s2l ("a/b.kdbx")), true⟩ :=
  C9_state_unchanged true ⟨true, some (s2l ("a/b.kdbx")), true⟩
    (.obj (.cons (s2l ("id")) (.num 3)
      (.cons (s2l ("action")) (.str (s2l ("get-status"))) .nil)))
    (successResponse (.num 3) (.str (s2l ("get-status")))
      (.obj (.cons (s2l ("isOpen")) (.bool true)
        (.cons (s2l ("isDatabaseLoaded")) (.bool true)
          (.cons (s2l ("databaseName")) (.str (s2l ("b.kdbx"))) .nil)))))
    ⟨true, some (s2l ("a/b.kdbx")), true⟩ (by rfl)

/-! C1: frame round trip. -/

theorem escString_replicate_a (n : Nat) :
    escString (List.replicate n (Char.ofNat 97)) = List.replicate n (Char.ofNat 97) := by
  induction n with
  | zero => rfl
  | succ k ih =>
    rw [List.replicate_succ, escString, ih]
    rfl

theorem dumps_obj_len_ge (k : List Char) (v : Json) (tl : JsonKVs) :
    (dumps v).length ≤ (dumps (.obj (.cons k v tl))).length := by
  rw [dumps]
  simp only [List.length_cons, List.length_append]
  omega

theorem dumps_str_replicate_len (n : Nat) :
    (dumps (Json.str (List.replicate n (Char.ofNat 97)))).length = n + 2 := by
  rw [dumps, escString_replicate_a]
  simp only [List.length_cons, List.length_append, List.length_replicate, List.length_nil]

theorem validEnvelope_data_shape {v : Json} (hw : jwf v = true) :
    validEnvelope (.obj (.cons (s2l ("data")) v
      (.cons (s2l ("id")) .null (.cons (s2l ("action")) (.str (s2l ("x"))) .nil)))) = true := by
  simp only [validEnvelope, kwf, kvHasKey, hw, jwf]
  decide

/-- C1 (amended): for every valid envelope whose UTF-8 JSON serialization
is under 2^32 bytes, decoding the frame `send_message` writes reproduces
the envelope exactly, consuming the whole stream.  The size bound is
necessary: without it `struct.pack('=I', ...)` raises inside
`send_message`, the exception is swallowed, and nothing is written (see
the counterexample theorem). -/
theorem C1_frame_round_trip (m : Json) (hv : validEnvelope m = true)
    (hsize : (utf8Encode (dumps m)).length < 4294967296) :
    read_message (send_message_bytes m) = (some m, []) := by
  cases m with
  | null => simp [validEnvelope] at hv
  | bool b => simp [validEnvelope] at hv
  | num n => simp [validEnvelope] at hv
  | str s => simp [validEnvelope] at hv
  | arr l => simp [validEnvelope] at hv
  | obj kvs =>
    have hwf : jwf (.obj kvs) = true := by
      rw [validEnvelope] at hv
      simp only [Bool.and_eq_true] at hv
      rw [jwf]
      exact hv.1.1.1
    have h := read_send_message hwf (fun hc => Json.noConfusion hc) hsize []
    rw [List.append_nil] at h
    exact h

/-- Witness for C1 at a concrete envelope: `{id: 1, action: "ping", data: {}}`. -/
theorem C1_frame_round_trip_witness :
    validEnvelope (.obj (.cons (s2l ("id")) (.num 1)
      (.cons (s2l ("action")) (.str (s2l ("ping")))
        (.cons (s2l ("data")) (.obj .nil) .nil)))) = true ∧
    read_message (send_message_bytes (.obj (.cons (s2l ("id")) (.num 1)
      (.cons (s2l ("action")) (.str (s2l ("ping")))
        (.cons (s2l ("data")) (.obj .nil) .nil))))) =
      (some (.obj (.cons (s2l ("id")) (.num 1)
        (.cons (s2l ("action")) (.str (s2l ("ping")))
          (.cons (s2l ("data")) (.obj .nil) .nil)))), []) :=
  ⟨by decide, C1_frame_round_trip _ (by decide) (by decide)⟩

/-- C1 counterexample: a valid envelope whose JSON text reaches 2^32
bytes (its `data` field is a string of 2^32 letters `a`).  `send_message`
writes nothing at all for it — `struct.pack('=I', length)` raises and the
`except` clause swallows the error — so decoding what was written yields
no message rather than the envelope: the round trip fails without a size
bound. -/
theorem C1_unbounded_counterexample :
    validEnvelope (.obj (.cons (s2l ("data")) (.str (List.replicate 4294967296 (Char.ofNat 97)))
      (.cons (s2l ("id")) .null (.cons (s2l ("action")) (.str (s2l ("x"))) .nil)))) = true ∧
    send_message_bytes (.obj (.cons (s2l ("data")) (.str (List.replicate 4294967296 (Char.ofNat 97)))
      (.cons (s2l ("id")) .null (.cons (s2l ("action")) (.str (s2l ("x"))) .nil)))) = [] ∧
    read_message (send_message_bytes (.obj (.cons (s2l ("data")) (.str (List.replicate 4294967296 (Char.ofNat 97)))
      (.cons (s2l ("id")) .null (.cons (s2l ("action")) (.str (s2l ("x"))) .nil))))) = (none, []) := by
  have hw : jwf (Json.str (List.replicate 4294967296 (Char.ofNat 97))) = true := by
    rw [jwf]
  have hge : 4294967296 ≤ (utf8Encode (dumps (.obj (.cons (s2l ("data")) (.str (List.replicate 4294967296 (Char.ofNat 97)))
      (.cons (s2l ("id")) .null (.cons (s2l ("action")) (.str (s2l ("x"))) .nil)))))).length := by
    rw [utf8Encode_ascii (dumps_ascii _), List.length_map]
    have hle := dumps_obj_len_ge (s2l ("data"))
      (.str (List.replicate 4294967296 (Char.ofNat 97)))
      (.cons (s2l ("id")) .null (.cons (s2l ("action")) (.str (s2l ("x"))) .nil))
    have h1 := dumps_str_replicate_len 4294967296
    omega
  have hsend : send_message_bytes (.obj (.cons (s2l ("data")) (.str (List.replicate 4294967296 (Char.ofNat 97)))
      (.cons (s2l ("id")) .null (.cons (s2l ("action")) (.str (s2l ("x"))) .nil)))) = [] := by
    simp only [send_message_bytes]
    rw [if_neg (by omega)]
  exact ⟨validEnvelope_data_shape hw, hsend, by rw [hsend]; rfl⟩

/-- C2 counterexample: `get-credentials` with `data.domain = 123` — a data
mapping with no non-empty-string `domain` field — nevertheless succeeds
with `success: true`: the handler checks Python truthiness of the value,
not that it is a non-empty string, so no invalid-argument error is
raised. -/
theorem C2_missing_domain_counterexample :
    handle_message true initState (.obj (.cons (s2l ("id")) (.str (s2l ("1")))
      (.cons (s2l ("action")) (.str (s2l ("get-credentials")))
        (.cons (s2l ("data")) (.obj (.cons (s2l ("domain")) (.num 123) .nil)) .nil)))) =
      .ok (successResponse (.str (s2l ("1"))) (.str (s2l ("get-credentials")))
        (.obj (.cons (s2l ("credentials")) (.arr .nil) .nil)), initState) := by
  rfl

/-- C2 (amended): a `get-credentials` request whose `data.domain` is falsy
(absent, empty string, `0`, `null`, empty list or mapping) is answered
with `success: false`, but the error is `Domain not provided` only when
pykeepass is available — the availability check fires first, so otherwise
the error reads `PyKeePass not available`.  No backend query is made: the
spec-modelled backend-aware handler returns the identical response for
every backend. -/
theorem C2_missing_domain (avail : Bool) (st : HostState) (kvs dkvs : JsonKVs)
    (ha : kvLookup kvs (s2l ("action")) = some (.str (s2l ("get-credentials"))))
    (hd : kvLookup kvs (s2l ("data")) = some (.obj dkvs))
    (hfalsy : pyTruthy ((kvLookup dkvs (s2l ("domain"))).getD (.str [])) = false) :
    handle_message avail st (.obj kvs) =
      .ok (errorResponse ((kvLookup kvs (s2l ("id"))).getD .null)
        (.str (s2l ("get-credentials")))
        (if avail then s2l ("Domain not provided") else s2l ("PyKeePass not available")),
        st) ∧
    (∀ backend, handle_message_backend avail backend st (.obj kvs) =
      handle_message avail st (.obj kvs)) := by
  have hroute : routeAction avail st ((kvLookup kvs (s2l ("action"))).getD .null)
      ((kvLookup kvs (s2l ("data"))).getD (.obj .nil)) =
      .error (if avail then s2l ("Domain not provided")
        else s2l ("PyKeePass not available")) := by
    rw [ha, hd]
    show routeAction avail st (.str (s2l ("get-credentials"))) (.obj dkvs) = _
    rw [routeAction_get_credentials]
    cases avail with
    | false => rw [handle_get_credentials_unavailable]; rfl
    | true => rw [handle_get_credentials_falsy hfalsy]; rfl
  have hrouteb : ∀ backend, routeAction_backend avail backend st
      ((kvLookup kvs (s2l ("action"))).getD .null)
      ((kvLookup kvs (s2l ("data"))).getD (.obj .nil)) =
      .error (if avail then s2l ("Domain not provided")
        else s2l ("PyKeePass not available")) := by
    intro backend
    rw [ha, hd]
    show routeAction_backend avail backend st (.str (s2l ("get-credentials"))) (.obj dkvs) = _
    rw [routeAction_backend_get_credentials]
    cases avail with
    | false => rw [handle_get_credentials_backend_unavailable]; rfl
    | true => rw [handle_get_credentials_backend_falsy hfalsy]; rfl
  constructor
  · rw [handle_message_error_eq hroute, ha]
    rfl
  · intro backend
    rw [handle_message_backend_error_eq (hrouteb backend), handle_message_error_eq hroute]

/-- Witness for C2 at a concrete request: `get-credentials` with `data:{}`
and pykeepass available. -/
theorem C2_missing_domain_witness :
    handle_message true initState (.obj (.cons (s2l ("id")) (.num 9)
      (.cons (s2l ("action")) (.str (s2l ("get-credentials")))
        (.cons (s2l ("data")) (.obj .nil) .nil)))) =
      .ok (errorResponse (.num 9) (.str (s2l ("get-credentials")))
        (s2l ("Domain not provided")), initState) ∧
    (∀ backend, handle_message_backend true backend initState
        (.obj (.cons (s2l ("id")) (.num 9)
          (.cons (s2l ("action")) (.str (s2l ("get-credentials")))
            (.cons (s2l ("data")) (.obj .nil) .nil)))) =
      handle_message true initState (.obj (.cons (s2l ("id")) (.num 9)
        (.cons (s2l ("action")) (.str (s2l ("get-credentials")))
          (.cons (s2l ("data")) (.obj .nil) .nil))))) :=
  C2_missing_domain true initState
    (.cons (s2l ("id")) (.num 9)
      (.cons (s2l ("action")) (.str (s2l ("get-credentials")))
        (.cons (s2l ("data")) (.obj .nil) .nil))) .nil
    (by decide) (by decide) (by decide)

/-- C3 counterexample: a backend fault whose text reaches the caller
verbatim.  With a store open, a `get-credentials` dispatch whose backend
collaborator raises an exception reading `boom /home/user/secret.kdbx`
produces an error response carrying exactly that raw text — nothing is
sanitized. -/
theorem C3_backend_fault_counterexample :
    handle_message_backend true (fun _ => .error (s2l ("boom /home/user/secret.kdbx")))
      ⟨true, none, false⟩
      (.obj (.cons (s2l ("id")) (.num 1)
        (.cons (s2l ("action")) (.str (s2l ("get-credentials")))
          (.cons (s2l ("data"))
            (.obj (.cons (s2l ("domain")) (.str (s2l ("example.com"))) .nil)) .nil)))) =
      .ok (errorResponse (.num 1) (.str (s2l ("get-credentials")))
        (s2l ("boom /home/user/secret.kdbx")), ⟨true, none, false⟩) := by
  rfl

/-- C3 (amended, over the spec-modelled backend collaborator): when the
backend faults, the error response's message is exactly the fault text
`str(e)`, verbatim — the `except` clause of `handle_message` interpolates
the raw exception text, with no sanitization layer in between. -/
theorem C3_backend_fault_verbatim (backend : List Char → Except (List Char) JsonList)
    (st : HostState) (kvs dkvs : JsonKVs) (d t : List Char)
    (hst : st.kp_some = true)
    (ha : kvLookup kvs (s2l ("action")) = some (.str (s2l ("get-credentials"))))
    (hdata : kvLookup kvs (s2l ("data")) = some (.obj dkvs))
    (hdom : kvLookup dkvs (s2l ("domain")) = some (.str d))
    (hne : ¬(d = []))
    (hb : backend d = .error t) :
    handle_message_backend true backend st (.obj kvs) =
      .ok (errorResponse ((kvLookup kvs (s2l ("id"))).getD .null)
        (.str (s2l ("get-credentials"))) t, st) := by
  have htr : pyTruthy (Json.str d) = true := by
    rw [pyTruthy]
    cases d with
    | nil => exact absurd rfl hne
    | cons c cs => rfl
  have hroute : routeAction_backend true backend st
      ((kvLookup kvs (s2l ("action"))).getD .null)
      ((kvLookup kvs (s2l ("data"))).getD (.obj .nil)) = .error t := by
    rw [ha, hdata]
    show routeAction_backend true backend st (.str (s2l ("get-credentials"))) (.obj dkvs) = _
    rw [routeAction_backend_get_credentials]
    exact handle_get_credentials_backend_fault hst (by simp [hdom]) htr hb
  rw [handle_message_backend_error_eq hroute, ha]
  rfl

/-- Witness for C3 at a concrete request and backend: the backend faults
with `db locked` and the response error is exactly `db locked`. -/
theorem C3_backend_fault_verbatim_witness :
    handle_message_backend true (fun _ => .error (s2l ("db locked"))) ⟨true, none, false⟩
      (.obj (.cons (s2l ("id")) (.num 2)
        (.cons (s2l ("action")) (.str (s2l ("get-credentials")))
          (.cons (s2l ("data"))
            (.obj (.cons (s2l ("domain")) (.str (s2l ("a.io"))) .nil)) .nil)))) =
      .ok (errorResponse (.num 2) (.str (s2l ("get-credentials")))
        (s2l ("db locked")), ⟨true, none, false⟩) :=
  C3_backend_fault_verbatim (fun _ => .error (s2l ("db locked"))) ⟨true, none, false⟩
    (.cons (s2l ("id")) (.num 2)
      (.cons (s2l ("action")) (.str (s2l ("get-credentials")))
        (.cons (s2l ("data"))
          (.obj (.cons (s2l ("domain")) (.str (s2l ("a.io"))) .nil)) .nil)))
    (.cons (s2l ("domain")) (.str (s2l ("a.io"))) .nil)
    (s2l ("a.io")) (s2l ("db locked"))
    rfl (by decide) (by decide) (by decide) (by decide) rfl

/-- C4 counterexample: a truncated frame whose available bytes happen to
parse.  The header claims 9 payload bytes but only the 2 bytes of `{}`
follow; the short read returns them, they decode and parse, and
`read_message` yields the message `{}` instead of a decode failure — the
loop then dispatches it and writes a response rather than terminating. -/
theorem C4_truncated_frame_counterexample :
    read_message [9, 0, 0, 0, 123, 125] = (some (.obj .nil), []) ∧
    run true initState [9, 0, 0, 0, 123, 125] ≠ ([], .streamEnd) := by
  decide

/-- C4 (amended): a truncated frame ends the session loop only through the
`None` path shared with end-of-stream — there is no distinct DecodeError
value — and only when the truncated payload fails to decode: if the header
claims more bytes than remain and those bytes do not decode as UTF-8 JSON,
`read_message` returns `None` and the loop stops cleanly, writing nothing
and raising no uncaught exception.  (When the truncated bytes do parse,
the message is processed instead: see the counterexample.) -/
theorem C4_truncated_frame (avail : Bool) (st : HostState) (b0 b1 b2 b3 : Nat)
    (rest : List Nat)
    (hlt : rest.length < le32Dec b0 b1 b2 b3)
    (hdec : decodePayload rest = none) :
    read_message (b0 :: b1 :: b2 :: b3 :: rest) = (none, []) ∧
    run avail st (b0 :: b1 :: b2 :: b3 :: rest) = ([], .streamEnd) := by
  have hrm : read_message (b0 :: b1 :: b2 :: b3 :: rest) = (none, []) := by
    simp only [read_message]
    rw [List.take_of_length_le (le_of_lt hlt), hdec,
      List.drop_of_length_le (le_of_lt hlt)]
  refine ⟨hrm, run_stop ?_⟩
  rw [loopStep, hrm]

/-- Witness for C4 at a concrete stream: header claiming 5 bytes followed
by the single byte `{`, which fails to parse. -/
theorem C4_truncated_frame_witness :
    read_message [5, 0, 0, 0, 123] = (none, []) ∧
    run true initState [5, 0, 0, 0, 123] = ([], .streamEnd) :=
  C4_truncated_frame true initState 5 0 0 0 [123] (by decide) (by decide)

/-- C5 counterexample: a successfully decoded message that ends the loop.
The frame `[2,0,0,0]++"[]"` decodes to the JSON list `[]`; the envelope
reads (`message.get`) then raise `AttributeError` outside
`handle_message`'s `try`, `run`'s own catch-all ends the loop, and no
error response is written — a decoded, non-stream-level failure was
fatal. -/
theorem C5_decoded_message_fatal_counterexample :
    (read_message [2, 0, 0, 0, 91, 93]).1 = some (.arr .nil) ∧
    run true initState [2, 0, 0, 0, 91, 93] = ([], .envelopeFault) := by
  decide

/-- C5 (amended): handler failures never end the loop, but envelope-shape
failures do.  (a) every dict-shaped message yields a response — handler
exceptions are converted to `success:false` envelopes inside
`handle_message` — and the loop continues past it; (b) an iteration stops
only because `read_message` returned no message (stream end or
undecodable frame), or because a decoded message was not a dict, in which
case the `message.get` calls raise outside the handler `try` and `run`'s
catch-all stops the loop without writing a response. -/
theorem C5_stop_reasons (avail : Bool) (st : HostState) (s : List Nat) :
    (∀ kvs s2, read_message s = (some (.obj kvs), s2) →
      ∃ resp st2, loopStep avail st s = .next resp st2 s2) ∧
    (∀ r, loopStep avail st s = .stop r →
      (r = .streamEnd ∧ (read_message s).1 = none) ∨
      (r = .envelopeFault ∧
        ∃ m s2, read_message s = (some m, s2) ∧ ∀ kvs, ¬(m = .obj kvs))) := by
  have hobj : ∀ kvs : JsonKVs, ∃ resp st2,
      handle_message avail st (.obj kvs) = .ok (resp, st2) := by
    intro kvs
    simp only [handle_message]
    cases hr : routeAction avail st ((kvLookup kvs (s2l ("action"))).getD .null)
        ((kvLookup kvs (s2l ("data"))).getD (.obj .nil)) with
    | error e => exact ⟨_, _, rfl⟩
    | ok p =>
      obtain ⟨r0, st3⟩ := p
      exact ⟨_, _, rfl⟩
  constructor
  · intro kvs s2 hrm
    obtain ⟨resp, st2, hm⟩ := hobj kvs
    refine ⟨resp, st2, ?_⟩
    rw [loopStep, hrm]
    dsimp only
    rw [hm]
  · intro r hstop
    rw [loopStep] at hstop
    cases hrm : read_message s with
    | mk o s2 =>
      rw [hrm] at hstop
      cases o with
      | none =>
        dsimp only at hstop
        injection hstop with h1
        exact .inl ⟨h1.symm, rfl⟩
      | some m =>
        dsimp only at hstop
        cases hh : handle_message avail st m with
        | error e =>
          rw [hh] at hstop
          dsimp only at hstop
          injection hstop with h1
          refine .inr ⟨h1.symm, m, s2, rfl, ?_⟩
          intro kvs hk
          subst hk
          obtain ⟨resp, st2, hm⟩ := hobj kvs
          rw [hm] at hh
          exact Except.noConfusion hh
        | ok p =>
          obtain ⟨r0, st3⟩ := p
          rw [hh] at hstop
          dsimp only at hstop
          exact StepRes.noConfusion hstop

/-- C10 counterexample: a short payload read is not reported as a failure.
The header claims 7 bytes and only the two digit bytes of `10` follow,
yet `read_message` returns the parsed number 10: a short read whose bytes
happen to parse is silently accepted rather than returning `None`. -/
theorem C10_short_read_counterexample :
    read_message [7, 0, 0, 0, 49, 48] = (some (.num 10), []) := by
  decide

/-- C10 (amended): `read_message` is total (modelled as a function it
always returns a value, raising nothing), and its genuine failure modes —
empty stream, a header shorter than 4 bytes, a payload that fails UTF-8
or JSON decoding, and a `null` payload — all return the same `None` as
clean end-of-stream, which the loop cannot distinguish: it stops with no
output in every such case.  A short payload read is however not such a
failure when its bytes parse (see the counterexample). -/
theorem C10_decode_failures_look_like_eof (avail : Bool) (st : HostState) :
    read_message [] = (none, []) ∧
    (∀ s : List Nat, 0 < s.length → s.length < 4 → (read_message s).1 = none) ∧
    (∀ b0 b1 b2 b3 rest, decodePayload (rest.take (le32Dec b0 b1 b2 b3)) = none →
      (read_message (b0 :: b1 :: b2 :: b3 :: rest)).1 = none) ∧
    (∀ b0 b1 b2 b3 rest,
      decodePayload (rest.take (le32Dec b0 b1 b2 b3)) = some .null →
      (read_message (b0 :: b1 :: b2 :: b3 :: rest)).1 = none) ∧
    (∀ s : List Nat, (read_message s).1 = none → run avail st s = ([], .streamEnd)) := by
  refine ⟨rfl, ?_, ?_, ?_, ?_⟩
  · intro s h1 h4
    rcases s with _ | ⟨a, _ | ⟨b, _ | ⟨c, _ | ⟨d, rest⟩⟩⟩⟩
    · simp at h1
    · rfl
    · rfl
    · rfl
    · simp only [List.length_cons] at h4
      omega
  · intro b0 b1 b2 b3 rest hdec
    simp only [read_message]
    rw [hdec]
  · intro b0 b1 b2 b3 rest hdec
    simp only [read_message]
    rw [hdec]
    rfl
  · intro s hnone
    refine run_stop ?_
    rw [loopStep]
    cases hrm : read_message s with
    | mk o s2 =>
      rw [hrm] at hnone
      cases o with
      | none => rfl
      | some m => simp at hnone

end KPH
